import Mathlib

/-!
# Verification of the simple_wbd reshaping core

A shallow embedding of the data-reshaping logic of the `simple_wbd`
package (files `simple_wbd/indicators.py`, `simple_wbd/climate.py` and
`simple_wbd/utils.py`) together with proofs settling the frozen claims
about it.

Modelling conventions:
* Python `dict`s are insertion-ordered association lists with unique keys
  (`pyGet?` is key lookup, `pySet` is `d[k] = v`: it updates an existing
  key in place and appends a fresh key at the end, exactly like CPython).
* Python `float` values parsed by `IndicatorDataset._parse_value` are
  modelled as `Option ℚ` (`none` is Python `None`); the inputs exercised
  here are small decimal literals, which `float` represents exactly.
* `sorted` on strings is lexicographic comparison of code points, which
  coincides with `List Char` ordering used below; it is realised with
  `List.insertionSort` (stable, like Python sort).  All lists sorted here
  have pairwise-distinct elements, so the result is the unique sorted
  arrangement, as with Python `sorted`.
* Code that can raise is embedded in `Except String`; total code is a
  plain function.
-/

namespace SimpleWbd

/-! ## Python dict primitives -/

/-- Key lookup in an association list, first match wins (Python `d.get(k)` /
`d[k]` when the key is present). -/
def pyGet? {κ β : Type} [DecidableEq κ] : List (κ × β) → κ → Option β
  | [], _ => none
  | (k', v) :: rest, k => if k' = k then some v else pyGet? rest k

/-- Python `d[k] = v`: replace the value of an existing key in place,
append a fresh key at the end. -/
def pySet {κ β : Type} [DecidableEq κ] : List (κ × β) → κ → β → List (κ × β)
  | [], k, v => [(k, v)]
  | (k', v') :: rest, k, v =>
      if k' = k then (k', v) :: rest else (k', v') :: pySet rest k v

/-- First index of an element (Python `list.index`). -/
def pyIndex? {α : Type} [DecidableEq α] : List α → α → Option Nat
  | [], _ => none
  | a :: rest, x => if a = x then some 0 else (pyIndex? rest x).map (· + 1)

/-- Set-like de-duplication keeping first occurrences (the iteration order
is irrelevant here because every use is followed by a sort over distinct
elements, mirroring Python `sorted(set(...))`). -/
def dedup {α : Type} [DecidableEq α] : List α → List α
  | [] => []
  | a :: rest => a :: (dedup rest).filter (· ≠ a)

/-! ## Python string ordering and numeric literal parsing -/

/-- Strict lexicographic comparison of character lists by code point,
Python's `<` on strings. -/
def charListLtB : List Char → List Char → Bool
  | [], [] => false
  | [], _ :: _ => true
  | _ :: _, [] => false
  | a :: as, b :: bs => if a < b then true else if b < a then false else charListLtB as bs

/-- Python `<=` on strings (used through `sorted`). -/
def strLeB (a b : String) : Bool := a == b || charListLtB a.toList b.toList

/-- Sort a list of strings ascending, Python `sorted` on strings. -/
def pySortStr (l : List String) : List String :=
  l.insertionSort (fun a b => strLeB a b = true)

/-- Digit run value: `none` when empty or any non-digit appears
(`int("…")` on the digit body). -/
def digitsVal?Aux (acc : Nat) : List Char → Option Nat
  | [] => some acc
  | c :: rest =>
      if c.isDigit then digitsVal?Aux (acc * 10 + (c.toNat - 48)) rest else none

def digitsVal? (cs : List Char) : Option Nat :=
  if cs.isEmpty then none else digitsVal?Aux 0 cs

/-- Whitespace stripped by Python `int`/`float` around a literal. -/
def isPySpace (c : Char) : Bool := c = ' ' || c = '\t' || c = '\n' || c = '\r'

def trimSpaces (cs : List Char) : List Char :=
  ((cs.dropWhile isPySpace).reverse.dropWhile isPySpace).reverse

/-- The tail of a CPython `int` digit body after its first digit: digits
with single `_` separators allowed only between two digits (no leading,
trailing or doubled underscore). -/
def intDigitsAux (acc : Nat) : List Char → Option Nat
  | [] => some acc
  | [c] => if c.isDigit then some (acc * 10 + (c.toNat - 48)) else none
  | c :: c2 :: rest =>
      if c = '_' then
        if c2.isDigit then intDigitsAux (acc * 10 + (c2.toNat - 48)) rest
        else none
      else if c.isDigit then
        intDigitsAux (acc * 10 + (c.toNat - 48)) (c2 :: rest)
      else none

/-- A CPython `int` digit body: a leading digit, then digits with
optional single underscore grouping. -/
def intDigits? (cs : List Char) : Option Nat :=
  match cs with
  | [] => none
  | c :: rest =>
      if c.isDigit then intDigitsAux (c.toNat - 48) rest else none

/-- CPython `int(s)` on ASCII arguments: optional surrounding
whitespace, an optional sign, then a non-empty digit run with optional
single underscores between digits.  CPython additionally accepts
non-ASCII Unicode decimal digits (category `Nd`); those are outside the
character set modelled here, and every theorem below that asserts a
parse failure restricts the characters it quantifies over to ASCII. -/
def pyInt (cs : List Char) : Option Int :=
  match trimSpaces cs with
  | [] => none
  | c :: rest =>
      if c = '+' then (intDigits? rest).map Int.ofNat
      else if c = '-' then (intDigits? rest).map (fun n => -(n : Int))
      else (intDigits? (c :: rest)).map Int.ofNat

/-- Python `float(s)` on a plain decimal literal (optional sign, digits,
optional fractional part), the shapes the World Bank API feeds through
`IndicatorDataset._parse_value`; exponents and the `inf`/`nan` words are
outside the fragment exercised here.  `none` models `ValueError`. -/
def pyFloat (s : String) : Option ℚ :=
  let cs := trimSpaces s.toList
  let signed : Int × List Char :=
    match cs with
    | '+' :: rest => (1, rest)
    | '-' :: rest => (-1, rest)
    | _ => (1, cs)
  let body := signed.2
  let ip := body.takeWhile (· ≠ '.')
  let digitRun : List Char → Nat :=
    fun l => l.foldl (fun a c => a * 10 + (c.toNat - 48)) 0
  match body.dropWhile (· ≠ '.') with
  | [] =>
      (digitsVal? ip).map (fun n => mkRat (signed.1 * (n : Int)) 1)
  | _ :: fp =>
      if ip.isEmpty && fp.isEmpty then none
      else if ip.all Char.isDigit && fp.all Char.isDigit then
        some (mkRat (signed.1 * ((digitRun ip * 10 ^ fp.length + digitRun fp : Nat) : Int))
          (10 ^ fp.length))
      else none

/-! ## IndicatorDataset (simple_wbd/indicators.py) -/

/-- One record of a World Bank indicator response, the fields
`IndicatorDataset` reads.  `country = none` models a record without a
`"country"` key, `country = some none` a `"country"` dict without a
`"value"` entry; `value = none` models both a missing `"value"` key and a
JSON `null` (both give `None` to `_parse_value`). -/
structure Datapoint where
  country : Option (Option String)
  date : Option String
  value : Option String
deriving DecidableEq, Repr

/-- `datapoint.get("country", {}).get("value", "")`. -/
def countryLabel (pt : Datapoint) : String := (pt.country.getD none).getD ""

/-- `datapoint.get("date", "")` as read by `_get_data_map`. -/
def dateLabel (pt : Datapoint) : String := pt.date.getD ""

/-- `IndicatorDataset._parse_value`: `None` stays `None`, any string is
fed to `float`, a parse failure is logged and yields `None`. -/
def parseValue (v : Option String) : Option ℚ := v.bind pyFloat

/-- The nested `defaultdict(lambda: defaultdict(float))` built by
`_get_data_map`: country label to date label to nullable float. -/
abbrev DataMap := List (String × List (String × Option ℚ))

/-- `data_map[c][d] = v` on the nested defaultdict: auto-vivify the
country entry (appended at the end like a fresh dict key), then set the
date key; an existing country entry is updated in place. -/
def dmSet : DataMap → String → String → Option ℚ → DataMap
  | [], c, d, v => [(c, [(d, v)])]
  | (c', inner) :: rest, c, d, v =>
      if c' = c then (c', pySet inner d v) :: rest
      else (c', inner) :: dmSet rest c d v

/-- Raw stored entry at `(c, d)`: `none` when the pair was never written. -/
def dmGet? (m : DataMap) (c d : String) : Option (Option ℚ) :=
  (pyGet? m c).bind (fun inner => pyGet? inner d)

/-- `data_map[c][d]` during table rendering: a missing pair defaults to
`float()` which is `0.0` (`some 0`), a stored unparseable value is `None`
(`none`). -/
def dmGet (m : DataMap) (c d : String) : Option ℚ :=
  (dmGet? m c d).getD (some 0)

/-- `IndicatorDataset._get_data_map`: fold every datapoint into the map,
prefixing country and date labels. -/
def getDataMap (data : List Datapoint) (m : DataMap) (cpre dpre : String) :
    DataMap :=
  data.foldl
    (fun m pt => dmSet m (cpre ++ countryLabel pt) (dpre ++ dateLabel pt)
      (parseValue pt.value)) m

/-- `IndicatorDataset._get_all_dates`: sorted set of all date keys. -/
def getAllDates (m : DataMap) : List String :=
  pySortStr (dedup (m.flatMap (fun p => p.2.map Prod.fst)))

/-- `IndicatorDataset._get_all_countries`: sorted country keys. -/
def getAllCountries (m : DataMap) : List String :=
  pySortStr (m.map Prod.fst)

/-- A cell of the indicator table: a header or row-label string, or a
(nullable) numeric value. -/
inductive ICell where
  | str (s : String)
  | val (x : Option ℚ)
deriving DecidableEq, Repr

/-- Shared rendering of `_get_single_response_list` and
`_get_responses_list` (their bodies after the map is built are
identical): a header row `"Country"` plus sorted dates, then one row per
sorted country. -/
def tableOf (m : DataMap) : List (List ICell) :=
  let dates := getAllDates m
  let countries := getAllCountries m
  (ICell.str "Country" :: dates.map ICell.str) ::
    countries.map (fun c => ICell.str c :: dates.map (fun d => ICell.val (dmGet m c d)))

/-- `IndicatorDataset._get_single_response_list`. -/
def singleList (data : List Datapoint) : List (List ICell) :=
  tableOf (getDataMap data [] "" "")

/-- The merged map of `_get_responses_list`: every indicator contributes
with date prefix `indicator + " - "`, countries unprefixed. -/
def respMap (resp : List (String × List Datapoint)) : DataMap :=
  resp.foldl (fun m p => getDataMap p.2 m "" (p.1 ++ " - ")) []

/-- `IndicatorDataset._get_responses_list`. -/
def responsesList (resp : List (String × List Datapoint)) : List (List ICell) :=
  tableOf (respMap resp)

/-- `IndicatorDataset.as_list`: one indicator renders alone, several merge
with date prefixes, zero gives the empty list. -/
def asList (resp : List (String × List Datapoint)) : List (List ICell) :=
  match resp with
  | [] => []
  | [p] => singleList p.2
  | _ => responsesList resp

/-! ## Characterisation of the indicator data map -/

/-- Country-level keys of a data map. -/
def dmKeys (m : DataMap) : List String := m.map Prod.fst

/-- All `(country label, prefixed date label, parsed value)` writes of the
multi-indicator merge, in write order. -/
def flatEntries (resp : List (String × List Datapoint)) :
    List ((String × String) × Option ℚ) :=
  resp.flatMap (fun p => p.2.map
    (fun pt => ((countryLabel pt, p.1 ++ " - " ++ dateLabel pt), parseValue pt.value)))

/-- All date keys (column labels) occurring anywhere in a data map. -/
def datesOfMap (m : DataMap) : List String :=
  m.flatMap (fun p => p.2.map Prod.fst)

/-! ## Predicates used by the multi-indicator claims -/

/-- Some indicator of the response set reports a datapoint whose country
label is `c`. -/
def reported (resp : List (String × List Datapoint)) (c : String) : Prop :=
  ∃ p ∈ resp, ∃ pt ∈ p.2, countryLabel pt = c

/-- Indicator data `data` reports some datapoint with country label `c`. -/
def reportedBy (data : List Datapoint) (c : String) : Prop :=
  ∃ pt ∈ data, countryLabel pt = c

/-- Some indicator reports a datapoint with country label `c` whose
prefixed date label is exactly the column `col`. -/
def covers (resp : List (String × List Datapoint)) (c col : String) : Prop :=
  ∃ p ∈ resp, ∃ pt ∈ p.2,
    countryLabel pt = c ∧ p.1 ++ " - " ++ dateLabel pt = col

/-- No two distinct indicators produce the same prefixed date-column
label (`A ++ " - " ++ dA = B ++ " - " ++ dB` never happens across
indicators). -/
def NoCollision (resp : List (String × List Datapoint)) : Prop :=
  ∀ p ∈ resp, ∀ q ∈ resp, p.1 ≠ q.1 →
    ∀ a ∈ p.2, ∀ b ∈ q.2,
      p.1 ++ " - " ++ dateLabel a ≠ q.1 ++ " - " ++ dateLabel b

instance (resp : List (String × List Datapoint)) :
    Decidable (NoCollision resp) := by
  unfold NoCollision
  infer_instance

instance (resp : List (String × List Datapoint)) (c : String) :
    Decidable (reported resp c) := by
  unfold reported
  infer_instance

instance (data : List Datapoint) (c : String) :
    Decidable (reportedBy data c) := by
  unfold reportedBy
  infer_instance

instance (resp : List (String × List Datapoint)) (c col : String) :
    Decidable (covers resp c col) := by
  unfold covers
  infer_instance

/-! ## Locating cells inside a rendered table -/

/-- First index of the column headed by date label `d` among the date
columns (the header cells after the leading `"Country"` cell). -/
def idxOfCol : List ICell → String → Option Nat
  | [], _ => none
  | x :: rest, d =>
      if x = ICell.str d then some 0 else (idxOfCol rest d).map (· + 1)

/-- The row of a table whose leading cell is the country label `c`. -/
def rowOf (T : List (List ICell)) (c : String) : Option (List ICell) :=
  (T.drop 1).find? (fun r => decide (r.head? = some (ICell.str c)))

/-- The data cell of a table in row `c` at the column headed `d`. -/
def cellIn (T : List (List ICell)) (c d : String) : Option ICell :=
  (rowOf T c).bind (fun r =>
    (idxOfCol ((T.headD []).drop 1) d).bind (fun i => r.get? (i + 1)))

/-! ## parse_wb_date (simple_wbd/utils.py) -/

/-- A `datetime.date`; construction is only valid for
`1 <= year <= 9999` and `1 <= month <= 12` (day is always 1 here). -/
structure PyDate where
  year : Int
  month : Int
  day : Int
deriving DecidableEq, Repr

/-- `datetime.date(y, m, 1)`: `none` models the `ValueError`/`TypeError`
raised (and then swallowed by the bare `except`) for out-of-range
components. -/
def mkPyDate (y m : Int) : Option PyDate :=
  if 1 ≤ y ∧ y ≤ 9999 ∧ 1 ≤ m ∧ m ≤ 12 then some ⟨y, m, 1⟩ else none

/-- `utils.parse_wb_date`: upper-case the string, read the year from the
first four characters, then the month from position 4 onward (`"Q"` uses
only the single character at index 5, `"M"` the slice `[5:7]`); any
failure anywhere (including the unbound `month` when position 4 is
neither `"Q"` nor `"M"` and the length is not 4) is caught by the bare
`except` and returns `None`. -/
def parseWbDate (s : String) : Option PyDate :=
  let u := s.toList.map Char.toUpper
  match pyInt (u.take 4) with
  | none => none
  | some y =>
      let m? : Option Int :=
        if u.length = 4 then some 1
        else if u.get? 4 = some 'Q' then
          match u.get? 5 with
          | some c => (pyInt [c]).map (fun q => q * 3 - 2)
          | none => none
        else if u.get? 4 = some 'M' then
          pyInt ((u.drop 5).take 2)
        else none
      match m? with
      | some m => mkPyDate y m
      | none => none

/-- The accumulated value of a digit run. -/
def digitsValue (cs : List Char) : Nat :=
  cs.foldl (fun a c => a * 10 + (c.toNat - 48)) 0

/-! ## ClimateDataset (simple_wbd/climate.py) -/

/-- A key or data atom of the climate structures: interval names and
location/variable labels are strings, time keys and data values in the
API fixtures are integers.  Python raises `TypeError` on an
order-comparison between a string and an int; the label sort below only
evaluates `skeyLeB` under the `labelsCmpOkB` guard, which confines it to
same-type comparisons, so the cross-type branches of `skeyLeB` are
never observable. -/
inductive SKey where
  | s (v : String)
  | i (n : Int)
deriving DecidableEq, Repr

/-- Python `<=` on two atoms of the same type (the cross-type branches
are arbitrary and only reachable when the `labelsCmpOkB` guard already
holds, in which case they are never evaluated at a mixed pair). -/
def skeyLeB : SKey → SKey → Bool
  | .s a, .s b => strLeB a b
  | .i a, .i b => a ≤ b
  | .i _, .s _ => true
  | .s _, .i _ => false

/-- Python list comparison: lexicographic, first difference decides. -/
def skeyListLeB : List SKey → List SKey → Bool
  | [], _ => true
  | _ :: _, [] => false
  | a :: as, b :: bs => if a = b then skeyListLeB as bs else skeyLeB a b

/-- Two atoms are order-comparable in Python: `<` between an `int` and
a `str` raises `TypeError`, same-type atoms always compare. -/
def skeyCmpOkB : SKey → SKey → Bool
  | .s _, .s _ => true
  | .i _, .i _ => true
  | _, _ => false

/-- Python's list comparison orders two labels without raising iff the
elements at their first difference are order-comparable (`==` across
types never raises, so equal lists and prefix/extension pairs are
fine). -/
def skeyListCmpOkB : List SKey → List SKey → Bool
  | [], _ => true
  | _ :: _, [] => true
  | a :: as, b :: bs => if a = b then skeyListCmpOkB as bs else skeyCmpOkB a b

/-- Every pair of labels in the list is order-comparable.  When this
holds, every comparison any sort of the list can make is defined, and
any comparison sort — CPython's Timsort included — returns the one
sorted arrangement of these labels; when it fails for some pair, the
two labels agree up to a mixed-type slot, so their relative order
follows from no chain of defined comparisons (labels that differ from
both of them do so at an earlier, equal slot and order identically
against both), and a comparison sort must evaluate a mixed `int`/`str`
comparison: CPython raises `TypeError`. -/
def labelsCmpOkB (ls : List (List SKey)) : Bool :=
  ls.all (fun a => ls.all (fun b => skeyListCmpOkB a b))

/-- One record of a climate `"response"` list, for example
`{"data": 5, "month": 0}`. -/
abbrev CRecord := List (String × SKey)

/-- One value of an api-response bucket: the `"response"` record list or
the `"url"` metadata string. -/
inductive BEntry where
  | recs (l : List CRecord)
  | str (u : String)
deriving DecidableEq, Repr

/-- The dict stored at `api_responses[location][type][interval]`,
normally `{"url": …, "response": […]}`. -/
abbrev Bucket := List (String × BEntry)

/-- `ClimateDataset.api_responses`. -/
abbrev CResponses := List (String × List (String × List (String × Bucket)))

/-- Level 4 of the `as_dict` result: time value to data value. -/
abbrev CD4 := List (SKey × SKey)

abbrev CD3 := List (SKey × CD4)

abbrev CD2 := List (SKey × CD3)

/-- The 4-level map returned by `ClimateDataset.as_dict`. -/
abbrev CDict := List (SKey × CD2)

/-- `ClimateDataset._time_key_map.get(interval, interval)` with
`_time_key_map = {"decade": "year"}`. -/
def timeKey (interval : String) : String :=
  if interval = "decade" then "year" else interval

/-- `interval_dict.get("response", [])`.  A missing key yields the empty
list; a non-empty string there would be iterated character by character
and the first `value[time_key]` subscript raises `TypeError` (an empty
string behaves like `[]`). -/
def bucketRecs (b : Bucket) : Except String (List CRecord) :=
  match pyGet? b "response" with
  | some (.recs l) => .ok l
  | some (.str u) => if u = "" then .ok [] else .error "TypeError: string record"
  | none => .ok []

/-- The record loop of `as_dict`:
`value_data[value[time_key]] = value["data"]` for every record (CPython
evaluates the right-hand side `value["data"]` first); a missing field is
a `KeyError`. -/
def procRecords (d : CD4) (tk : String) : List CRecord → Except String CD4
  | [] => .ok d
  | r :: rest =>
      match pyGet? r "data" with
      | none => .error "KeyError: data"
      | some v =>
          match pyGet? r tk with
          | none => .error "KeyError: time field"
          | some k => procRecords (pySet d k v) tk rest

/-- `result[c][t][i]` on the nested defaultdict (auto-vivified empty
levels read as `[]`). -/
def cdGet3 (m : CDict) (c t i : SKey) : CD4 :=
  (pyGet? ((pyGet? ((pyGet? m c).getD []) t).getD []) i).getD []

/-- Store a level-4 dict back at path `c, t, i`, vivifying the path the
way the defaultdict access `result[c][t][i]` does. -/
def cdSet3 (m : CDict) (c t i : SKey) (d : CD4) : CDict :=
  let m2 := (pyGet? m c).getD []
  let m3 := (pyGet? m2 t).getD []
  pySet m c (pySet m2 t (pySet m3 i d))

/-- The raw stored entry at `(c, t, i, k)`: `none` when any level is
missing. -/
def cdGet4? (m : CDict) (c t i k : SKey) : Option SKey :=
  (pyGet? m c).bind (fun m2 => (pyGet? m2 t).bind
    (fun m3 => (pyGet? m3 i).bind (fun d => pyGet? d k)))

/-- The flattened iteration of the three nested `as_dict` loops. -/
def respTriples (resp : CResponses) : List (String × String × String × Bucket) :=
  resp.flatMap (fun p => p.2.flatMap (fun q => q.2.map (fun r => (p.1, q.1, r.1, r.2))))

def asDictFold : List (String × String × String × Bucket) → CDict →
    Except String CDict
  | [], m => .ok m
  | (c, t, i, b) :: rest, m =>
      match bucketRecs b with
      | .error e => .error e
      | .ok recs =>
          match procRecords (cdGet3 m (.s c) (.s t) (.s i)) (timeKey i) recs with
          | .error e => .error e
          | .ok d => asDictFold rest (cdSet3 m (.s c) (.s t) (.s i) d)

/-- `ClimateDataset.as_dict` (the nested country/type/interval loops are
flattened into one pass over `respTriples`, preserving iteration order;
note that `value_data = result[c][t][i]` vivifies the path even when the
response list is empty, which `cdSet3` reproduces). -/
def asDict (resp : CResponses) : Except String CDict :=
  asDictFold (respTriples resp) []

/-- The key sets gathered by `ClimateDataset._gather_keys` from the
`as_dict` result: countries, types, and `(interval, time value)` pairs. -/
structure GKeys where
  countries : List SKey
  types : List SKey
  intervals : List (SKey × SKey)
deriving Repr

def gatherKeys (m : CDict) : GKeys :=
  { countries := dedup (m.map Prod.fst)
  , types := dedup (m.flatMap (fun p => p.2.map Prod.fst))
  , intervals := dedup (m.flatMap (fun p => p.2.flatMap
      (fun q => q.2.flatMap (fun r => r.2.map (fun e => (r.1, e.1)))))) }

/-- `all_keys[axis]` as the list of flattened label components
contributed by one axis (`interval` contributes a 2-atom component, the
others a single atom).  An axis name outside `KEYS` would be a Python
`KeyError`; `as_list` only ever passes axes from `KEYS`. -/
def axisLabels (keys : GKeys) (a : String) : List (List SKey) :=
  if a = "country" then keys.countries.map (fun c => [c])
  else if a = "type" then keys.types.map (fun t => [t])
  else if a = "interval" then keys.intervals.map (fun p => [p.1, p.2])
  else []

/-- `itertools.product`, rightmost factor varying fastest. -/
def listProd {α : Type} : List (List α) → List (List α)
  | [] => [[]]
  | l :: rest => l.flatMap (fun a => (listProd rest).map (a :: ·))

/-- `[utils.flaten(item) for item in product(...)]`: the unsorted label
list that `_generate_empty_array` hands to `sorted`. -/
def rawLabels (keys : GKeys) (axes : List String) : List (List SKey) :=
  (listProd (axes.map (axisLabels keys))).map List.flatten

/-- `sorted([utils.flaten(item) for item in product(...)])`, assuming
all comparisons are defined (`genList` checks `labelsCmpOkB` first). -/
def sortedLabels (keys : GKeys) (axes : List String) : List (List SKey) :=
  (rawLabels keys axes).insertionSort (fun a b => skeyListLeB a b = true)

/-- `ClimateDataset._get_level_key` for `"interval"`: the last two atoms
of the row label when `"interval"` is a row axis, of the column label
otherwise; destructuring into `interval, interval_key` raises
`ValueError` unless exactly two atoms remain. -/
def levelKeyInterval (rows _cols : List String) (rl cl : List SKey) :
    Except String (SKey × SKey) :=
  let src := if "interval" ∈ rows then rl else cl
  match src.drop (src.length - 2) with
  | [a, b] => .ok (a, b)
  | _ => .error "ValueError: unpack"

/-- `ClimateDataset._get_level_key` for `"country"` / `"type"`. -/
def levelKeyPlain (rows cols : List String) (rl cl : List SKey)
    (name : String) : Except String SKey :=
  if name ∈ rows then
    match pyIndex? rows name with
    | some idx =>
        match rl.get? idx with
        | some x => .ok x
        | none => .error "IndexError"
    | none => .error "ValueError: not in list"
  else
    match pyIndex? cols name with
    | some idx =>
        match cl.get? idx with
        | some x => .ok x
        | none => .error "IndexError"
    | none => .error "ValueError: not in list"

/-- A cell of the climate table. -/
inductive CCell where
  | s (v : String)
  | lbl (ks : List SKey)
  | v (x : SKey)
  | emptyMap
  | date (y : Int)
deriving DecidableEq, Repr

/-- `dict_[country][type_][interval][interval_key]` during the grid
fill: the value when the full path exists, otherwise the auto-vivified
`dict()` default — an empty dict placeholder, never an exception. -/
def lookup4 (m : CDict) (c t i k : SKey) : CCell :=
  match cdGet4? m c t i k with
  | some v => CCell.v v
  | none => CCell.emptyMap

def skeyStr : SKey → String
  | .s v => v
  | .i n => toString n

/-- `ClimateDataset._join` on an already-flattened label. -/
def joinLabel (ks : List SKey) : String := " - ".intercalate (ks.map skeyStr)

/-- The first-column stringification of `_generate_list`: a row label
whose first atom is the string `"year"` becomes `datetime.date(label[1],
1, 1)` under `use_dates` (failing for a non-int or out-of-range year),
otherwise the `" - "`-join of the label. -/
def stringifyRowLabel (useDates : Bool) (rl : List SKey) : Except String CCell :=
  if useDates ∧ rl.head? = some (.s "year") then
    match rl.get? 1 with
    | some (.i y) =>
        if 1 ≤ y ∧ y ≤ 9999 then .ok (.date y) else .error "ValueError: year"
    | some (.s _) => .error "TypeError: year from string"
    | none => .error "IndexError"
  else .ok (.s (joinLabel rl))

/-- Sequence a fallible function over a list, stopping at the first
error (the behaviour of a Python `for` loop whose body may raise). -/
def mapME {α β : Type} (f : α → Except String β) : List α → Except String (List β)
  | [] => .ok []
  | a :: rest =>
      match f a with
      | .error e => .error e
      | .ok b =>
          match mapME f rest with
          | .error e => .error e
          | .ok bs => .ok (b :: bs)

/-- The fill of one interior cell of the grid, for the row label `rl`
and column label `cl`:
`array[row][column] = dict_[country][type_][interval][interval_key]`. -/
def fillCell (m : CDict) (rows cols : List String) (rl cl : List SKey) :
    Except String CCell :=
  match levelKeyInterval rows cols rl cl with
  | .error e => .error e
  | .ok ik =>
      match levelKeyPlain rows cols rl cl "country" with
      | .error e => .error e
      | .ok c =>
          match levelKeyPlain rows cols rl cl "type" with
          | .error e => .error e
          | .ok t => .ok (lookup4 m c t ik.1 ik.2)

/-- `ClimateDataset._generate_list` (with `_generate_empty_array`
inlined): sort the row labels, then the column labels — `sorted` raises
`TypeError` when a mixed `int`/`str` pair must be compared, which
`labelsCmpOkB` characterises (see its docstring) — fill every interior
cell by decomposing the label pair and indexing the 4-level map, then
stringify the header row and the first column.  The header's first cell
is the row-axis name list `self.rows`. -/
def genList (m : CDict) (rows cols : List String) (useDates : Bool) :
    Except String (List (List CCell)) :=
  let keys := gatherKeys m
  if labelsCmpOkB (rawLabels keys rows) = true then
  if labelsCmpOkB (rawLabels keys cols) = true then
  let rowItems := sortedLabels keys rows
  let colItems := sortedLabels keys cols
  match mapME (fun rl =>
      match mapME (fillCell m rows cols rl) colItems with
      | .error e => .error e
      | .ok cells =>
          match stringifyRowLabel useDates rl with
          | .error e => .error e
          | .ok first => .ok ((first :: cells) : List CCell)) rowItems with
  | .error e => .error e
  | .ok bodyRows =>
      match stringifyRowLabel useDates (rows.map SKey.s) with
      | .error e => .error e
      | .ok headerFirst =>
          .ok ((headerFirst :: colItems.map (fun cl => CCell.s (joinLabel cl))) ::
            bodyRows)
  else .error "TypeError: unorderable types"
  else .error "TypeError: unorderable types"

/-- `ClimateDataset.KEYS`. -/
def CKEYS : List String := ["country", "type", "interval"]

/-- The `columns`/`rows` assignment of `as_list`: a falsy `columns`
(`None` or `[]`) selects the default split, otherwise the rows are the
`KEYS` not named in `columns`. -/
def climAxes : Option (List String) → List String × List String
  | none => (["type", "interval"], ["country"])
  | some [] => (["type", "interval"], ["country"])
  | some cs => (cs, CKEYS.filter (fun k => ¬ k ∈ cs))

/-- `set(self.columns) < set(self.KEYS)` (strict subset of sets). -/
def strictSubsetB (cs : List String) : Bool :=
  cs.all (fun c => c ∈ CKEYS) && !(CKEYS.all (fun k => k ∈ cs))

/-- `ClimateDataset.as_list`: assign axes, reject an invalid `columns`
argument with `TypeError("Columns argument contains invalid data")`
before building anything, then generate the table. -/
def climAsList (resp : CResponses) (columns : Option (List String))
    (useDates : Bool) : Except String (List (List CCell)) :=
  let ax := climAxes columns
  if strictSubsetB ax.1 = true then
    match asDict resp with
    | .error e => .error e
    | .ok m => genList m ax.2 ax.1 useDates
  else .error "Columns argument contains invalid data"

/-- A climate response with gaps: precipitation has only monthly data
and temperature only yearly data, so the cartesian column grid has
combinations absent from the 4-level map. -/
def c3gap : CResponses :=
  [("SVN",
    [("pr", [("month",
        [("response", BEntry.recs [[("data", SKey.i 5), ("month", SKey.i 0)]]),
         ("url", BEntry.str "u1")])]),
     ("tas", [("year",
        [("response", BEntry.recs [[("data", SKey.i 7), ("year", SKey.i 2008)]]),
         ("url", BEntry.str "u2")])])])]

/-- A climate response whose `month` interval carries both an integer
and a string time key.  With `columns=["type"]` the row labels are
`[ETH, month, 0]` and `[ETH, month, "x"]`: they differ first at the
mixed-type slot, so Python's `sorted` raises `TypeError` although the
`columns` argument is a valid strict subset. -/
def c6mixed : CResponses :=
  [("ETH", [("pr", [("month",
      [("response", BEntry.recs
        [[("data", SKey.i 1), ("month", SKey.i 0)],
         [("data", SKey.i 2), ("month", SKey.s "x")]])])])])]

/-- Spec-side restatement of the time-field selection, written from the
spec's words: `"year"` for both `"year"` and `"decade"`, `"month"` for
`"month"`, and the interval name itself for anything unrecognized.  To be
compared with `timeKey`, which is translated from
`ClimateDataset._time_key_map.get(interval, interval)`. -/
def timeKeySpecced (interval : String) : String :=
  if interval = "year" ∨ interval = "decade" then "year"
  else if interval = "month" then "month"
  else interval

def c5bucket : Bucket :=
  [("url", BEntry.str "u"),
   ("response", BEntry.recs [[("data", SKey.i 5), ("month", SKey.i 0)]])]

def c5resp : CResponses := [("ETH", [("pr", [("month", c5bucket)])])]

def c5dict : CDict :=
  [(SKey.s "ETH", [(SKey.s "pr", [(SKey.s "month", [(SKey.i 0, SKey.i 5)])])])]

/-! ## Theorems -/

theorem mem_dedup {α : Type} [DecidableEq α] {x : α} :
    ∀ {l : List α}, x ∈ dedup l ↔ x ∈ l := by
  intro l
  induction l with
  | nil => simp [dedup]
  | cons a rest ih =>
    simp only [dedup, List.mem_cons, List.mem_filter, ih]
    constructor
    · rintro (rfl | ⟨h, _⟩)
      · exact Or.inl rfl
      · exact Or.inr h
    · rintro (rfl | h)
      · exact Or.inl rfl
      · by_cases hx : x = a
        · exact Or.inl hx
        · exact Or.inr ⟨h, by simpa using hx⟩

theorem nodup_dedup {α : Type} [DecidableEq α] :
    ∀ (l : List α), (dedup l).Nodup := by
  intro l
  induction l with
  | nil => simp [dedup]
  | cons a rest ih =>
    refine List.Nodup.cons ?_ (List.Nodup.filter _ ih)
    intro hmem
    rcases List.mem_filter.mp hmem with ⟨_, hne⟩
    simp at hne

theorem pyGet?_pySet_same {κ β : Type} [DecidableEq κ]
    (m : List (κ × β)) (k : κ) (v : β) : pyGet? (pySet m k v) k = some v := by
  induction m with
  | nil => simp [pySet, pyGet?]
  | cons p rest ih =>
    obtain ⟨k', v'⟩ := p
    by_cases h : k' = k
    · simp [pySet, pyGet?, h]
    · simp [pySet, pyGet?, h, ih]

theorem pyGet?_pySet_ne {κ β : Type} [DecidableEq κ]
    (m : List (κ × β)) (k k' : κ) (v : β) (hne : k' ≠ k) :
    pyGet? (pySet m k v) k' = pyGet? m k' := by
  have hne' : ¬ k = k' := fun h => hne h.symm
  induction m with
  | nil => simp [pySet, pyGet?, hne']
  | cons p rest ih =>
    obtain ⟨k₀, v₀⟩ := p
    by_cases h : k₀ = k
    · subst h
      simp [pySet, pyGet?, hne']
    · simp only [pySet, if_neg h, pyGet?]
      by_cases h' : k₀ = k'
      · simp [h']
      · simp [h', ih]

theorem keys_pySet {κ β : Type} [DecidableEq κ]
    (m : List (κ × β)) (k : κ) (v : β) :
    (pySet m k v).map Prod.fst =
      if k ∈ m.map Prod.fst then m.map Prod.fst
      else m.map Prod.fst ++ [k] := by
  induction m with
  | nil => simp [pySet]
  | cons p rest ih =>
    obtain ⟨k₀, v₀⟩ := p
    by_cases h : k₀ = k
    · subst h
      simp [pySet]
    · have h' : ¬ k = k₀ := fun hh => h hh.symm
      simp only [pySet, if_neg h, List.map_cons, ih, List.mem_cons]
      by_cases hc : k ∈ rest.map Prod.fst
      · simp [hc, h']
      · simp [hc, h']

theorem pyGet?_append {κ β : Type} [DecidableEq κ]
    (m₁ m₂ : List (κ × β)) (k : κ) :
    pyGet? (m₁ ++ m₂) k = (pyGet? m₁ k).or (pyGet? m₂ k) := by
  induction m₁ with
  | nil => simp [pyGet?]
  | cons p rest ih =>
    obtain ⟨k₀, v₀⟩ := p
    by_cases h : k₀ = k
    · simp [pyGet?, h]
    · simp [pyGet?, h, ih]

theorem pyGet?_eq_none_iff {κ β : Type} [DecidableEq κ]
    (m : List (κ × β)) (k : κ) :
    pyGet? m k = none ↔ k ∉ m.map Prod.fst := by
  induction m with
  | nil => simp [pyGet?]
  | cons p rest ih =>
    obtain ⟨k₀, v₀⟩ := p
    by_cases h : k₀ = k
    · simp [pyGet?, h]
    · have h' : ¬ k = k₀ := fun hh => h hh.symm
      simp [pyGet?, h, ih, h']

theorem pyGet?_isSome_of_mem {κ β : Type} [DecidableEq κ]
    {m : List (κ × β)} {k : κ} (h : k ∈ m.map Prod.fst) :
    ∃ v, pyGet? m k = some v := by
  rcases he : pyGet? m k with _ | v
  · exact absurd ((pyGet?_eq_none_iff m k).mp he) (by simpa using h)
  · exact ⟨v, rfl⟩

theorem pySortStr_perm (l : List String) : (pySortStr l).Perm l :=
  List.perm_insertionSort _ l

theorem dmGet?_dmSet (m : DataMap) (c d c' d' : String) (v : Option ℚ) :
    dmGet? (dmSet m c d v) c' d' =
      if c' = c ∧ d' = d then some v else dmGet? m c' d' := by
  induction m with
  | nil =>
    by_cases hc : c = c'
    · subst hc
      by_cases hd : d = d'
      · subst hd
        simp [dmSet, dmGet?, pyGet?]
      · have hd' : ¬ d' = d := fun h => hd h.symm
        simp [dmSet, dmGet?, pyGet?, hd, hd']
    · have hc' : ¬ c' = c := fun h => hc h.symm
      simp [dmSet, dmGet?, pyGet?, hc, hc']
  | cons p rest ih =>
    obtain ⟨c₀, inner⟩ := p
    by_cases h0 : c₀ = c
    · subst h0
      by_cases hc : c₀ = c'
      · subst hc
        simp only [dmSet, if_pos rfl, dmGet?, pyGet?]
        by_cases hd : d' = d
        · subst hd
          simp [pyGet?_pySet_same]
        · simp [pyGet?_pySet_ne inner d d' v hd, hd]
      · have hc' : ¬ (c' = c₀ ∧ d' = d) := fun h => hc h.1.symm
        simp [dmSet, dmGet?, pyGet?, hc, hc']
    · by_cases hc : c₀ = c'
      · subst hc
        have hcc : ¬ (c₀ = c ∧ d' = d) := fun h => h0 h.1
        simp [dmSet, dmGet?, pyGet?, h0, hcc]
      · simp only [dmSet, if_neg h0, dmGet?, pyGet?, if_neg hc]
        exact ih

theorem mem_dmKeys_dmSet (m : DataMap) (c d c' : String) (v : Option ℚ) :
    c' ∈ dmKeys (dmSet m c d v) ↔ c' ∈ dmKeys m ∨ c' = c := by
  induction m with
  | nil => simp [dmSet, dmKeys]
  | cons p rest ih =>
    obtain ⟨c₀, inner⟩ := p
    simp only [dmKeys, List.map_cons, List.mem_cons] at ih ⊢
    by_cases h0 : c₀ = c
    · subst h0
      simp [dmSet]
      tauto
    · simp [dmSet, h0, ih]
      tauto

theorem nodup_dmKeys_dmSet (m : DataMap) (c d : String) (v : Option ℚ)
    (h : (dmKeys m).Nodup) : (dmKeys (dmSet m c d v)).Nodup := by
  induction m with
  | nil => simp [dmSet, dmKeys]
  | cons p rest ih =>
    obtain ⟨c₀, inner⟩ := p
    simp only [dmKeys, List.map_cons, List.nodup_cons] at h ⊢
    by_cases h0 : c₀ = c
    · subst h0
      simpa [dmSet] using h
    · simp only [dmSet, if_neg h0, List.map_cons, List.nodup_cons]
      refine ⟨?_, ih h.2⟩
      intro hmem
      rcases (mem_dmKeys_dmSet rest c d c₀ v).mp hmem with hmem' | rfl
      · exact h.1 hmem'
      · exact h0 rfl

/-- The stored entry after a `_get_data_map` pass: the last datapoint
whose prefixed labels match wins, otherwise the original map answers. -/
theorem dmGet?_getDataMap (data : List Datapoint) (m : DataMap)
    (cpre dpre c d : String) :
    dmGet? (getDataMap data m cpre dpre) c d =
      match data.reverse.find?
          (fun pt => decide (cpre ++ countryLabel pt = c ∧ dpre ++ dateLabel pt = d)) with
      | some pt => some (parseValue pt.value)
      | none => dmGet? m c d := by
  induction data generalizing m with
  | nil => simp [getDataMap]
  | cons pt rest ih =>
    rw [getDataMap, List.foldl_cons, ← getDataMap, ih, List.reverse_cons,
      List.find?_append]
    rcases h1 : rest.reverse.find?
        (fun pt => decide (cpre ++ countryLabel pt = c ∧ dpre ++ dateLabel pt = d)) with _ | p
    · simp only [Option.none_or]
      rcases h2 : List.find?
          (fun pt => decide (cpre ++ countryLabel pt = c ∧ dpre ++ dateLabel pt = d)) [pt] with _ | q
      · have hpt : ¬ (cpre ++ countryLabel pt = c ∧ dpre ++ dateLabel pt = d) := by
          have := List.find?_eq_none.mp h2 pt (by simp)
          simpa using this
        rw [dmGet?_dmSet, if_neg (fun hcd => hpt ⟨hcd.1.symm, hcd.2.symm⟩)]
      · have hq : q = pt := by
          have := List.mem_of_find?_eq_some h2
          simpa using this
        subst hq
        have hpos : cpre ++ countryLabel q = c ∧ dpre ++ dateLabel q = d := by
          have hb := List.find?_some h2
          simpa using hb
        rw [dmGet?_dmSet, if_pos ⟨hpos.1.symm, hpos.2.symm⟩]
    · simp

/-- Country keys accumulated by `_get_data_map`. -/
theorem mem_dmKeys_getDataMap (data : List Datapoint) (m : DataMap)
    (cpre dpre c : String) :
    c ∈ dmKeys (getDataMap data m cpre dpre) ↔
      c ∈ dmKeys m ∨ ∃ pt ∈ data, cpre ++ countryLabel pt = c := by
  induction data generalizing m with
  | nil => simp [getDataMap]
  | cons pt rest ih =>
    rw [getDataMap, List.foldl_cons, ← getDataMap, ih, mem_dmKeys_dmSet]
    constructor
    · rintro ((h | h) | ⟨q, hq, rfl⟩)
      · exact Or.inl h
      · exact Or.inr ⟨pt, by simp, h.symm⟩
      · exact Or.inr ⟨q, by simp [hq], rfl⟩
    · rintro (h | ⟨q, hq, rfl⟩)
      · exact Or.inl (Or.inl h)
      · rcases List.mem_cons.mp hq with rfl | hq'
        · exact Or.inl (Or.inr rfl)
        · exact Or.inr ⟨q, hq', rfl⟩

theorem nodup_dmKeys_getDataMap (data : List Datapoint) (m : DataMap)
    (cpre dpre : String) (h : (dmKeys m).Nodup) :
    (dmKeys (getDataMap data m cpre dpre)).Nodup := by
  induction data generalizing m with
  | nil => simpa [getDataMap]
  | cons pt rest ih =>
    rw [getDataMap, List.foldl_cons, ← getDataMap]
    exact ih _ (nodup_dmKeys_dmSet _ _ _ _ h)

theorem empty_string_append (s : String) : "" ++ s = s := rfl

theorem flatEntries_cons (p : String × List Datapoint)
    (rest : List (String × List Datapoint)) :
    flatEntries (p :: rest) =
      p.2.map (fun pt =>
        ((countryLabel pt, p.1 ++ " - " ++ dateLabel pt), parseValue pt.value)) ++
        flatEntries rest := by
  simp [flatEntries]

theorem dmGet?_respMap_aux (resp : List (String × List Datapoint))
    (c d : String) : ∀ m,
    dmGet? (resp.foldl (fun m p => getDataMap p.2 m "" (p.1 ++ " - ")) m) c d =
      match (flatEntries resp).reverse.find?
          (fun e => decide (e.1.1 = c ∧ e.1.2 = d)) with
      | some e => some e.2
      | none => dmGet? m c d := by
  induction resp with
  | nil => intro m; simp [flatEntries]
  | cons p rest ih =>
    intro m
    rw [List.foldl_cons, ih, flatEntries_cons, List.reverse_append, List.find?_append]
    rcases h1 : (flatEntries rest).reverse.find?
        (fun e => decide (e.1.1 = c ∧ e.1.2 = d)) with _ | e
    · rw [h1, Option.none_or, ← List.map_reverse, List.find?_map]
      rw [show ((fun (e : (String × String) × Option ℚ) => decide (e.1.1 = c ∧ e.1.2 = d)) ∘
            (fun pt => ((countryLabel pt, p.1 ++ " - " ++ dateLabel pt), parseValue pt.value))) =
          (fun pt => decide ("" ++ countryLabel pt = c ∧ p.1 ++ " - " ++ dateLabel pt = d))
          from rfl]
      show dmGet? (getDataMap p.2 m "" (p.1 ++ " - ")) c d = _
      rw [dmGet?_getDataMap]
      rcases h2 : p.2.reverse.find?
          (fun pt => decide ("" ++ countryLabel pt = c ∧ p.1 ++ " - " ++ dateLabel pt = d)) with _ | q
      · rfl
      · rfl
    · rw [h1]
      rfl

/-- The merged multi-indicator map answers with the last write whose
country label and prefixed date label match. -/
theorem dmGet?_respMap (resp : List (String × List Datapoint)) (c d : String) :
    dmGet? (respMap resp) c d =
      ((flatEntries resp).reverse.find?
          (fun e => decide (e.1.1 = c ∧ e.1.2 = d))).map (fun e => e.2) := by
  rw [respMap, dmGet?_respMap_aux]
  rcases hfe : (flatEntries resp).reverse.find?
      (fun e => decide (e.1.1 = c ∧ e.1.2 = d)) with _ | e
  · rw [hfe]
    rfl
  · rw [hfe]
    rfl

theorem mem_flatEntries (resp : List (String × List Datapoint))
    (e : (String × String) × Option ℚ) :
    e ∈ flatEntries resp ↔
      ∃ p ∈ resp, ∃ pt ∈ p.2,
        e = ((countryLabel pt, p.1 ++ " - " ++ dateLabel pt), parseValue pt.value) := by
  simp [flatEntries, eq_comm]

theorem datesOfMap_cons (q : String × List (String × Option ℚ))
    (l : DataMap) :
    datesOfMap (q :: l) = q.2.map Prod.fst ++ datesOfMap l := by
  simp [datesOfMap]

theorem mem_datesOfMap_dmSet (m : DataMap) (c d d' : String) (v : Option ℚ) :
    d' ∈ datesOfMap (dmSet m c d v) ↔ d' ∈ datesOfMap m ∨ d' = d := by
  induction m with
  | nil => simp [dmSet, datesOfMap]
  | cons p rest ih =>
    obtain ⟨c₀, inner⟩ := p
    by_cases h0 : c₀ = c
    · have hks : d' ∈ (pySet inner d v).map Prod.fst ↔
          d' ∈ inner.map Prod.fst ∨ d' = d := by
        rw [keys_pySet]
        by_cases hd : d ∈ inner.map Prod.fst
        · rw [if_pos hd]
          constructor
          · exact Or.inl
          · rintro (h | rfl)
            · exact h
            · exact hd
        · rw [if_neg hd]
          simp
      rw [show dmSet ((c₀, inner) :: rest) c d v = (c₀, pySet inner d v) :: rest
          from by simp [dmSet, h0]]
      rw [datesOfMap_cons, datesOfMap_cons, List.mem_append, List.mem_append, hks]
      tauto
    · rw [show dmSet ((c₀, inner) :: rest) c d v = (c₀, inner) :: dmSet rest c d v
          from by simp [dmSet, h0]]
      rw [datesOfMap_cons, datesOfMap_cons, List.mem_append, List.mem_append, ih]
      tauto

theorem mem_datesOfMap_getDataMap (data : List Datapoint) (m : DataMap)
    (cpre dpre d : String) :
    d ∈ datesOfMap (getDataMap data m cpre dpre) ↔
      d ∈ datesOfMap m ∨ ∃ pt ∈ data, dpre ++ dateLabel pt = d := by
  induction data generalizing m with
  | nil => simp [getDataMap]
  | cons pt rest ih =>
    rw [getDataMap, List.foldl_cons, ← getDataMap, ih, mem_datesOfMap_dmSet]
    constructor
    · rintro ((h | h) | ⟨q, hq, rfl⟩)
      · exact Or.inl h
      · exact Or.inr ⟨pt, by simp, h.symm⟩
      · exact Or.inr ⟨q, by simp [hq], rfl⟩
    · rintro (h | ⟨q, hq, rfl⟩)
      · exact Or.inl (Or.inl h)
      · rcases List.mem_cons.mp hq with rfl | hq'
        · exact Or.inl (Or.inr rfl)
        · exact Or.inr ⟨q, hq', rfl⟩

theorem mem_datesOfMap_respMap (resp : List (String × List Datapoint))
    (d : String) :
    d ∈ datesOfMap (respMap resp) ↔
      ∃ p ∈ resp, ∃ pt ∈ p.2, p.1 ++ " - " ++ dateLabel pt = d := by
  suffices h : ∀ m, d ∈ datesOfMap
        (resp.foldl (fun m p => getDataMap p.2 m "" (p.1 ++ " - ")) m) ↔
      d ∈ datesOfMap m ∨ ∃ p ∈ resp, ∃ pt ∈ p.2, p.1 ++ " - " ++ dateLabel pt = d by
    rw [respMap, h []]
    simp [datesOfMap]
  induction resp with
  | nil => intro m; simp
  | cons p rest ih =>
    intro m
    rw [List.foldl_cons, ih, mem_datesOfMap_getDataMap]
    constructor
    · rintro ((h | ⟨pt, hpt, rfl⟩) | ⟨q, hq, pt, hpt, rfl⟩)
      · exact Or.inl h
      · exact Or.inr ⟨p, by simp, pt, hpt, rfl⟩
      · exact Or.inr ⟨q, by simp [hq], pt, hpt, rfl⟩
    · rintro (h | ⟨q, hq, pt, hpt, rfl⟩)
      · exact Or.inl (Or.inl h)
      · rcases List.mem_cons.mp hq with rfl | hq'
        · exact Or.inl (Or.inr ⟨pt, hpt, rfl⟩)
        · exact Or.inr ⟨q, hq', pt, hpt, rfl⟩

theorem mem_dmKeys_respMap (resp : List (String × List Datapoint))
    (c : String) :
    c ∈ dmKeys (respMap resp) ↔ ∃ p ∈ resp, ∃ pt ∈ p.2, countryLabel pt = c := by
  suffices h : ∀ m, c ∈ dmKeys
        (resp.foldl (fun m p => getDataMap p.2 m "" (p.1 ++ " - ")) m) ↔
      c ∈ dmKeys m ∨ ∃ p ∈ resp, ∃ pt ∈ p.2, countryLabel pt = c by
    rw [respMap, h []]
    simp [dmKeys]
  induction resp with
  | nil => intro m; simp
  | cons p rest ih =>
    intro m
    rw [List.foldl_cons, ih, mem_dmKeys_getDataMap]
    constructor
    · rintro ((h | ⟨pt, hpt, hl⟩) | ⟨q, hq, pt, hpt, hl⟩)
      · exact Or.inl h
      · exact Or.inr ⟨p, by simp, pt, hpt, by rw [← hl]; rfl⟩
      · exact Or.inr ⟨q, by simp [hq], pt, hpt, hl⟩
    · rintro (h | ⟨q, hq, pt, hpt, hl⟩)
      · exact Or.inl (Or.inl h)
      · rcases List.mem_cons.mp hq with rfl | hq'
        · exact Or.inl (Or.inr ⟨pt, hpt, by rw [← hl]; rfl⟩)
        · exact Or.inr ⟨q, hq', pt, hpt, hl⟩

theorem nodup_dmKeys_respMap (resp : List (String × List Datapoint)) :
    (dmKeys (respMap resp)).Nodup := by
  suffices h : ∀ m, (dmKeys m).Nodup →
      (dmKeys (resp.foldl (fun m p => getDataMap p.2 m "" (p.1 ++ " - ")) m)).Nodup by
    exact h [] (by simp [dmKeys])
  induction resp with
  | nil => intro m hm; simpa using hm
  | cons p rest ih =>
    intro m hm
    rw [List.foldl_cons]
    exact ih _ (nodup_dmKeys_getDataMap _ _ _ _ hm)

/-- An uncovered `(country, column)` position of the merged map densifies
to the `defaultdict(float)` zero, whatever indicator the column belongs
to. -/
theorem dmGet_respMap_uncovered (resp : List (String × List Datapoint))
    (c col : String) (h : ¬ covers resp c col) :
    dmGet (respMap resp) c col = some 0 := by
  rw [dmGet, dmGet?_respMap]
  rcases hfe : (flatEntries resp).reverse.find?
      (fun e => decide (e.1.1 = c ∧ e.1.2 = col)) with _ | e
  · rw [hfe]
    rfl
  · exfalso
    have hmem : e ∈ flatEntries resp := by
      have := List.mem_of_find?_eq_some hfe
      simpa using this
    have hpe : e.1.1 = c ∧ e.1.2 = col := by
      have := List.find?_some hfe
      simpa using this
    rcases (mem_flatEntries resp e).mp hmem with ⟨p, hp, pt, hpt, rfl⟩
    exact h ⟨p, hp, pt, hpt, hpe.1, hpe.2⟩

/-- A `None` cell of the merged map always originates from a reported
record whose value failed to parse. -/
theorem dmGet_respMap_none (resp : List (String × List Datapoint))
    (c col : String) (h : dmGet (respMap resp) c col = none) :
    ∃ p ∈ resp, ∃ pt ∈ p.2,
      countryLabel pt = c ∧ p.1 ++ " - " ++ dateLabel pt = col ∧
        parseValue pt.value = none := by
  rw [dmGet, dmGet?_respMap] at h
  rcases hfe : (flatEntries resp).reverse.find?
      (fun e => decide (e.1.1 = c ∧ e.1.2 = col)) with _ | e
  · rw [hfe] at h
    cases h
  · rw [hfe] at h
    have hval : e.2 = none := by simpa using h
    have hmem : e ∈ flatEntries resp := by
      have := List.mem_of_find?_eq_some hfe
      simpa using this
    have hpe : e.1.1 = c ∧ e.1.2 = col := by
      have := List.find?_some hfe
      simpa using this
    rcases (mem_flatEntries resp e).mp hmem with ⟨p, hp, pt, hpt, rfl⟩
    exact ⟨p, hp, pt, hpt, hpe.1, hpe.2, hval⟩

theorem idxOfCol_map_str (l : List String) (d : String) (hd : d ∈ l) :
    ∃ i, idxOfCol (l.map ICell.str) d = some i ∧
      ∀ (f : String → ICell), (l.map f).get? i = some (f d) := by
  induction l with
  | nil => cases hd
  | cons a rest ih =>
    by_cases ha : a = d
    · subst ha
      exact ⟨0, by simp [idxOfCol], fun f => by simp⟩
    · have hd' : d ∈ rest := by
        rcases List.mem_cons.mp hd with rfl | h
        · exact absurd rfl ha
        · exact h
      rcases ih hd' with ⟨i, hidx, hget⟩
      refine ⟨i + 1, ?_, fun f => by simpa using hget f⟩
      have hne : ¬ (ICell.str a = ICell.str d) := by
        intro hh
        cases hh
        exact ha rfl
      simp [idxOfCol, hne, hidx]

theorem find?_map_rows (countries : List String) (c : String)
    (rowFn : String → List ICell)
    (hhead : ∀ c', (rowFn c').head? = some (ICell.str c'))
    (hc : c ∈ countries) :
    (countries.map rowFn).find?
        (fun r => decide (r.head? = some (ICell.str c))) = some (rowFn c) := by
  induction countries with
  | nil => cases hc
  | cons a rest ih =>
    by_cases ha : a = c
    · subst ha
      simp [List.find?_cons, hhead]
    · have hc' : c ∈ rest := by
        rcases List.mem_cons.mp hc with rfl | h
        · exact absurd rfl ha
        · exact h
      have hne : ¬ ((rowFn a).head? = some (ICell.str c)) := by
        rw [hhead a]
        intro hh
        injection hh with hh'
        cases hh'
        exact ha rfl
      simp only [List.map_cons, List.find?_cons]
      rw [decide_eq_false hne]
      exact ih hc'

theorem countP_eq_one_of_nodup {α : Type} [DecidableEq α]
    (l : List α) (c : α) (hN : l.Nodup) (hc : c ∈ l) :
    l.countP (fun x => decide (x = c)) = 1 := by
  induction l with
  | nil => cases hc
  | cons a rest ih =>
    rcases List.nodup_cons.mp hN with ⟨hna, hnr⟩
    by_cases ha : a = c
    · subst ha
      rw [List.countP_cons_of_pos _ _ (by simp)]
      have hz : rest.countP (fun x => decide (x = a)) = 0 := by
        rw [List.countP_eq_zero]
        intro b hb
        simp only [decide_eq_true_eq]
        rintro rfl
        exact hna hb
      rw [hz]
    · have hc' : c ∈ rest := by
        rcases List.mem_cons.mp hc with rfl | h
        · exact absurd rfl ha
        · exact h
      rw [List.countP_cons_of_neg _ _ (by simpa using ha)]
      exact ih hnr hc'

theorem tableOf_head (m : DataMap) :
    (tableOf m).headD [] = ICell.str "Country" :: (getAllDates m).map ICell.str := rfl

theorem tableOf_drop_one (m : DataMap) :
    (tableOf m).drop 1 = (getAllCountries m).map
      (fun c => ICell.str c :: (getAllDates m).map
        (fun d => ICell.val (dmGet m c d))) := rfl

theorem mem_getAllCountries (m : DataMap) (c : String) :
    c ∈ getAllCountries m ↔ c ∈ dmKeys m :=
  (pySortStr_perm (m.map Prod.fst)).mem_iff

theorem mem_getAllDates (m : DataMap) (d : String) :
    d ∈ getAllDates m ↔ d ∈ datesOfMap m := by
  rw [getAllDates, (pySortStr_perm _).mem_iff, mem_dedup]
  rfl

theorem nodup_getAllCountries (m : DataMap) (h : (dmKeys m).Nodup) :
    (getAllCountries m).Nodup :=
  ((pySortStr_perm (m.map Prod.fst)).nodup_iff).mpr h

theorem rowOf_tableOf (m : DataMap) (c : String) (hc : c ∈ getAllCountries m) :
    rowOf (tableOf m) c = some (ICell.str c :: (getAllDates m).map
      (fun d => ICell.val (dmGet m c d))) := by
  rw [rowOf, tableOf_drop_one]
  exact find?_map_rows _ c _ (fun c' => rfl) hc

theorem cellIn_tableOf (m : DataMap) (c d : String)
    (hc : c ∈ getAllCountries m) (hd : d ∈ getAllDates m) :
    cellIn (tableOf m) c d = some (ICell.val (dmGet m c d)) := by
  rw [cellIn, rowOf_tableOf m c hc]
  rw [show ((tableOf m).headD []).drop 1 = (getAllDates m).map ICell.str from rfl]
  rcases idxOfCol_map_str (getAllDates m) d hd with ⟨i, hidx, hget⟩
  rw [hidx]
  have hg := hget (fun d' => ICell.val (dmGet m c d'))
  simp only [Option.bind_some, Option.some_bind]
  rw [List.get?_cons_succ]
  exact hg

theorem countRows_tableOf (m : DataMap) (c : String)
    (hN : (dmKeys m).Nodup) (hc : c ∈ dmKeys m) :
    ((tableOf m).drop 1).countP
      (fun r => decide (r.head? = some (ICell.str c))) = 1 := by
  rw [tableOf_drop_one, List.countP_map]
  have hpe : ((fun r => decide (r.head? = some (ICell.str c))) ∘
      (fun c' => ICell.str c' :: (getAllDates m).map
        (fun d => ICell.val (dmGet m c' d)))) = fun c' => decide (c' = c) := by
    funext c'
    simp only [Function.comp_apply, List.head?_cons]
    by_cases h : c' = c
    · subst h
      simp
    · have hne : ¬ (some (ICell.str c') = some (ICell.str c)) := by
        intro hh
        injection hh with hh'
        cases hh'
        exact h rfl
      simp [hne, h]
  rw [hpe]
  exact countP_eq_one_of_nodup _ c (nodup_getAllCountries m hN)
    ((mem_getAllCountries m c).mpr hc)

theorem asList_eq_responsesList (resp : List (String × List Datapoint))
    (h : 2 ≤ resp.length) : asList resp = responsesList resp := by
  match resp with
  | [] => simp at h
  | [p] => simp at h
  | a :: b :: rest => rfl

theorem eq_snd_of_mem_nodup_keys {α β : Type}
    {l : List (α × β)} (h : (l.map Prod.fst).Nodup)
    {p q : α × β} (hp : p ∈ l) (hq : q ∈ l) (hk : p.1 = q.1) : p.2 = q.2 := by
  induction l with
  | nil => cases hp
  | cons a rest ih =>
    rcases List.nodup_cons.mp h with ⟨hna, hnr⟩
    rcases List.mem_cons.mp hp with rfl | hp'
    · rcases List.mem_cons.mp hq with rfl | hq'
      · rfl
      · exact absurd (hk ▸ List.mem_map_of_mem Prod.fst hq') hna
    · rcases List.mem_cons.mp hq with rfl | hq'
      · exact absurd (hk ▸ List.mem_map_of_mem Prod.fst hp') hna
      · exact ih hnr hp' hq'

/-! ## Claims about IndicatorDataset -/

/-- **C1**: for the single-indicator input with Brazil 1998Q2 "131" and
Belgium 2015Q2 "126", `as_list` returns exactly the header row followed
by the sorted country rows, with sorted date columns, string values
parsed to floats, and absent `(country, date)` cells filled with `0.0`. -/
theorem c1_single_indicator_concrete :
    asList [("ind 1",
      [⟨some (some "Brazil"), some "1998Q2", some "131"⟩,
       ⟨some (some "Belgium"), some "2015Q2", some "126"⟩])] =
    [[ICell.str "Country", ICell.str "1998Q2", ICell.str "2015Q2"],
     [ICell.str "Belgium", ICell.val (some 0), ICell.val (some 126)],
     [ICell.str "Brazil", ICell.val (some 131), ICell.val (some 0)]] := by
  decide

/-- **C2, counterexample**: with indicators named `"a"` and `"a - b"`,
the prefixed column labels collide (`"a" ++ " - " ++ "b - d"` equals
`"a - b" ++ " - " ++ "d"`).  Indicator `"a - b"` does not report country
`"C"` and covers date `"d"`, yet the cell of row `"C"` in that column is
`None` (from `"a"`'s unparseable value), not `0.0` — so the claim as
stated over every multi-indicator input is false. -/
theorem c2_counterexample :
    (("a - b", [⟨some (some "X"), some "d", some "7"⟩]) ∈
      ([("a", [⟨some (some "C"), some "b - d", some "x"⟩]),
        ("a - b", [⟨some (some "X"), some "d", some "7"⟩])] :
        List (String × List Datapoint))) ∧
    reported [("a", [⟨some (some "C"), some "b - d", some "x"⟩]),
        ("a - b", [⟨some (some "X"), some "d", some "7"⟩])] "C" ∧
    ¬ reportedBy [⟨some (some "X"), some "d", some "7"⟩] "C" ∧
    "d" ∈ ([⟨some (some "X"), some "d", some "7"⟩] : List Datapoint).map dateLabel ∧
    cellIn (asList [("a", [⟨some (some "C"), some "b - d", some "x"⟩]),
        ("a - b", [⟨some (some "X"), some "d", some "7"⟩])])
      "C" ("a - b" ++ " - " ++ "d") = some (ICell.val none) ∧
    some (ICell.val none) ≠ some (ICell.val (some (0 : ℚ))) := by
  decide

/-- **C2, amended**: restricted to multi-indicator inputs whose prefixed
date-column labels do not collide across distinct indicators (and whose
indicator names are unique, as they are for a Python dict), every
reported country appears as exactly one row; a column of indicator `B`
holds `0.0` in the row of every country `B` did not report; and a `None`
cell only arises from a reported record whose value failed to parse. -/
theorem c2_multi_zero_fill (resp : List (String × List Datapoint))
    (hlen : 2 ≤ resp.length)
    (hnd : (resp.map Prod.fst).Nodup)
    (hnc : NoCollision resp) :
    (∀ c, reported resp c →
      ((asList resp).drop 1).countP
        (fun r => decide (r.head? = some (ICell.str c))) = 1) ∧
    (∀ B dataB c d, (B, dataB) ∈ resp → reported resp c →
      ¬ reportedBy dataB c → d ∈ dataB.map dateLabel →
      cellIn (asList resp) c (B ++ " - " ++ d) = some (ICell.val (some 0))) ∧
    (∀ c col, reported resp c → col ∈ datesOfMap (respMap resp) →
      cellIn (asList resp) c col = some (ICell.val none) →
      ∃ p ∈ resp, ∃ pt ∈ p.2, countryLabel pt = c ∧
        p.1 ++ " - " ++ dateLabel pt = col ∧ parseValue pt.value = none) := by
  rw [asList_eq_responsesList resp hlen, responsesList]
  refine ⟨?_, ?_, ?_⟩
  · intro c hrep
    exact countRows_tableOf _ c (nodup_dmKeys_respMap resp)
      ((mem_dmKeys_respMap resp c).mpr hrep)
  · intro B dataB c d hBmem hrep hnB hd
    rcases List.mem_map.mp hd with ⟨pt0, hpt0, rfl⟩
    have hcol : (B ++ " - " ++ dateLabel pt0) ∈ datesOfMap (respMap resp) :=
      (mem_datesOfMap_respMap resp _).mpr ⟨(B, dataB), hBmem, pt0, hpt0, rfl⟩
    have hcov : ¬ covers resp c (B ++ " - " ++ dateLabel pt0) := by
      rintro ⟨p, hp, pt', hpt', hcl, hdl⟩
      by_cases hpB : p.1 = B
      · have : p.2 = dataB := eq_snd_of_mem_nodup_keys hnd hp hBmem hpB
        exact hnB ⟨pt', this ▸ hpt', hcl⟩
      · exact hnc p hp (B, dataB) hBmem hpB pt' hpt' pt0 hpt0 hdl
    rw [cellIn_tableOf _ c _ ((mem_getAllCountries _ c).mpr
        ((mem_dmKeys_respMap resp c).mpr hrep))
      ((mem_getAllDates _ _).mpr hcol)]
    rw [dmGet_respMap_uncovered resp c _ hcov]
  · intro c col hrep hcol hcell
    rw [cellIn_tableOf _ c col ((mem_getAllCountries _ c).mpr
        ((mem_dmKeys_respMap resp c).mpr hrep))
      ((mem_getAllDates _ _).mpr hcol)] at hcell
    have hdg : dmGet (respMap resp) c col = none := by
      simpa using hcell
    exact dmGet_respMap_none resp c col hdg

/-- Witness for `c2_multi_zero_fill` at a concrete two-indicator input:
Brazil is reported only by `"a"`, and its cell in `"b"`'s date column
`"b - 2000"` is `0.0`. -/
theorem c2_multi_zero_fill_witness :
    cellIn (asList [("a", [⟨some (some "Brazil"), some "1998", some "1"⟩]),
                    ("b", [⟨some (some "Belgium"), some "2000", some "2"⟩])])
        "Brazil" ("b" ++ " - " ++ "2000") = some (ICell.val (some 0)) :=
  (c2_multi_zero_fill
    [("a", [⟨some (some "Brazil"), some "1998", some "1"⟩]),
     ("b", [⟨some (some "Belgium"), some "2000", some "2"⟩])]
    (by decide) (by decide) (by decide)).2.1
    "b" [⟨some (some "Belgium"), some "2000", some "2"⟩] "Brazil" "2000"
    (by decide) (by decide) (by decide) (by decide)

/-- **C4, counterexample**: in the two-indicator input where only `"a"`
reports Brazil, the cell of row Brazil in `"b"`'s column `"b - 2000"` is
`0.0`, not empty/null as the claim states. -/
theorem c4_counterexample :
    reported [("a", [⟨some (some "Brazil"), some "1998", some "1"⟩]),
        ("b", [⟨some (some "Belgium"), some "2000", some "2"⟩])] "Brazil" ∧
    ¬ reportedBy [⟨some (some "Belgium"), some "2000", some "2"⟩] "Brazil" ∧
    cellIn (asList [("a", [⟨some (some "Brazil"), some "1998", some "1"⟩]),
        ("b", [⟨some (some "Belgium"), some "2000", some "2"⟩])])
      "Brazil" "b - 2000" = some (ICell.val (some 0)) ∧
    some (ICell.val (some (0 : ℚ))) ≠ some (ICell.val none) := by
  decide

/-- **C4, amended**: the `defaultdict(float)` zero default applies to
every `(country, column)` position not covered by a reported record,
including positions in another indicator's columns; a cell is
empty/`None` only where some indicator reported a record at that exact
position whose value failed to parse. -/
theorem c4_zero_default_everywhere (resp : List (String × List Datapoint))
    (hlen : 2 ≤ resp.length) :
    (∀ c col, reported resp c → col ∈ datesOfMap (respMap resp) →
      ¬ covers resp c col →
      cellIn (asList resp) c col = some (ICell.val (some 0))) ∧
    (∀ c col, reported resp c → col ∈ datesOfMap (respMap resp) →
      cellIn (asList resp) c col = some (ICell.val none) →
      ∃ p ∈ resp, ∃ pt ∈ p.2, countryLabel pt = c ∧
        p.1 ++ " - " ++ dateLabel pt = col ∧ parseValue pt.value = none) := by
  rw [asList_eq_responsesList resp hlen, responsesList]
  constructor
  · intro c col hrep hcol hcov
    rw [cellIn_tableOf _ c col ((mem_getAllCountries _ c).mpr
        ((mem_dmKeys_respMap resp c).mpr hrep))
      ((mem_getAllDates _ _).mpr hcol)]
    rw [dmGet_respMap_uncovered resp c col hcov]
  · intro c col hrep hcol hcell
    rw [cellIn_tableOf _ c col ((mem_getAllCountries _ c).mpr
        ((mem_dmKeys_respMap resp c).mpr hrep))
      ((mem_getAllDates _ _).mpr hcol)] at hcell
    exact dmGet_respMap_none resp c col (by simpa using hcell)

/-- Witness for `c4_zero_default_everywhere`: the uncovered position
(Brazil, `"b - 2000"`) densifies to `0.0`. -/
theorem c4_zero_default_everywhere_witness :
    cellIn (asList [("a", [⟨some (some "Brazil"), some "1998", some "1"⟩]),
        ("b", [⟨some (some "Belgium"), some "2000", some "2"⟩])])
      "Brazil" "b - 2000" = some (ICell.val (some 0)) :=
  (c4_zero_default_everywhere
    [("a", [⟨some (some "Brazil"), some "1998", some "1"⟩]),
     ("b", [⟨some (some "Belgium"), some "2000", some "2"⟩])]
    (by decide)).1 "Brazil" "b - 2000" (by decide) (by decide) (by decide)

/-- **C9**: a datapoint lacking the `"country"` key, the nested country
`"value"`, or the `"date"` key is neither skipped nor an error: the
missing field reads as the empty-string label, `_get_data_map` files the
parsed value under the (prefix-prepended) country and date labels — so a
record missing a field lands under an empty or prefix-only label — and
in the rendered single-indicator table that label shows up as an
ordinary row head (country) and an ordinary header column (date). -/
theorem c9_missing_fields (data : List Datapoint) (cpre dpre : String)
    (pt : Datapoint) (hmem : pt ∈ data)
    (hc : pt.country = none ∨ pt.country = some none ∨ pt.date = none) :
    ((pt.country = none ∨ pt.country = some none) → countryLabel pt = "") ∧
    (pt.date = none → dateLabel pt = "") ∧
    (cpre ++ countryLabel pt) ∈ dmKeys (getDataMap data [] cpre dpre) ∧
    (∃ w, dmGet? (getDataMap data [] cpre dpre)
      (cpre ++ countryLabel pt) (dpre ++ dateLabel pt) = some w) ∧
    (∃ r ∈ (singleList data).drop 1,
      r.head? = some (ICell.str (countryLabel pt))) ∧
    ICell.str (dateLabel pt) ∈ (singleList data).headD [] := by
  have hcuse : (pt.country = none ∨ pt.country = some none) →
      countryLabel pt = "" := by
    intro h
    rcases h with h | h <;> simp [countryLabel, h]
  have hduse : pt.date = none → dateLabel pt = "" := by
    intro h
    simp [dateLabel, h]
  refine ⟨hcuse, hduse, ?_, ?_, ?_, ?_⟩
  · exact (mem_dmKeys_getDataMap data [] cpre dpre _).mpr
      (Or.inr ⟨pt, hmem, rfl⟩)
  · rw [dmGet?_getDataMap]
    rcases hfind : data.reverse.find? (fun q =>
        decide (cpre ++ countryLabel q = cpre ++ countryLabel pt ∧
          dpre ++ dateLabel q = dpre ++ dateLabel pt)) with _ | q
    · exfalso
      have := List.find?_eq_none.mp hfind pt (List.mem_reverse.mpr hmem)
      exact this (by simp)
    · exact ⟨parseValue q.value, rfl⟩
  · have hck : countryLabel pt ∈ dmKeys (getDataMap data [] "" "") :=
      (mem_dmKeys_getDataMap data [] "" "" _).mpr
        (Or.inr ⟨pt, hmem, by rw [empty_string_append]⟩)
    have hcs : countryLabel pt ∈ getAllCountries (getDataMap data [] "" "") :=
      (mem_getAllCountries _ _).mpr hck
    rw [singleList]
    refine ⟨ICell.str (countryLabel pt) ::
      (getAllDates (getDataMap data [] "" "")).map
        (fun d => ICell.val (dmGet (getDataMap data [] "" "")
          (countryLabel pt) d)), ?_, rfl⟩
    rw [tableOf_drop_one]
    exact List.mem_map_of_mem _ hcs
  · have hdk : dateLabel pt ∈ datesOfMap (getDataMap data [] "" "") :=
      (mem_datesOfMap_getDataMap data [] "" "" _).mpr
        (Or.inr ⟨pt, hmem, by rw [empty_string_append]⟩)
    rw [singleList, tableOf_head]
    exact List.mem_cons_of_mem _
      (List.mem_map_of_mem ICell.str ((mem_getAllDates _ _).mpr hdk))

/-- Witness for `c9_missing_fields`: a record that has a country but no
date key lands under the empty date label, which becomes an ordinary
(prefix-only) column of the map and an empty-header column of the
table. -/
theorem c9_missing_fields_witness :
    (((⟨some (some "Brazil"), none, some "5"⟩ : Datapoint).country = none ∨
        (⟨some (some "Brazil"), none, some "5"⟩ : Datapoint).country = some none) →
      countryLabel (⟨some (some "Brazil"), none, some "5"⟩ : Datapoint) = "") ∧
    ((⟨some (some "Brazil"), none, some "5"⟩ : Datapoint).date = none →
      dateLabel (⟨some (some "Brazil"), none, some "5"⟩ : Datapoint) = "") ∧
    ("P - " ++ countryLabel (⟨some (some "Brazil"), none, some "5"⟩ : Datapoint)) ∈
      dmKeys (getDataMap [⟨some (some "Brazil"), none, some "5"⟩] [] "P - " "Q - ") ∧
    (∃ w, dmGet? (getDataMap [⟨some (some "Brazil"), none, some "5"⟩] [] "P - " "Q - ")
      ("P - " ++ countryLabel (⟨some (some "Brazil"), none, some "5"⟩ : Datapoint))
      ("Q - " ++ dateLabel (⟨some (some "Brazil"), none, some "5"⟩ : Datapoint)) = some w) ∧
    (∃ r ∈ (singleList [⟨some (some "Brazil"), none, some "5"⟩]).drop 1,
      r.head? = some (ICell.str
        (countryLabel (⟨some (some "Brazil"), none, some "5"⟩ : Datapoint)))) ∧
    ICell.str (dateLabel (⟨some (some "Brazil"), none, some "5"⟩ : Datapoint)) ∈
      (singleList [⟨some (some "Brazil"), none, some "5"⟩]).headD [] :=
  c9_missing_fields [⟨some (some "Brazil"), none, some "5"⟩] "P - " "Q - "
    ⟨some (some "Brazil"), none, some "5"⟩ (by decide) (by decide)

/-! ### Character-level facts -/

theorem char_toNat_ofNat (n : Nat) (h : n.isValidChar) :
    (Char.ofNat n).toNat = n := by
  rw [Char.ofNat, dif_pos h]
  rfl

theorem toUpper_of_isDigit (c : Char) (h : c.isDigit = true) :
    c.toUpper = c := by
  simp only [Char.isDigit, Bool.and_eq_true, decide_eq_true_eq] at h
  have h57 : c.toNat ≤ 57 := h.2
  rw [Char.toUpper]
  rw [if_neg]
  rintro ⟨h97, _⟩
  omega

theorem isDigit_toUpper (d : Char) : d.toUpper.isDigit = d.isDigit := by
  rw [Char.toUpper]
  split
  · rename_i hcond
    have hv : (Char.ofNat (d.toNat - 32)).toNat = d.toNat - 32 := by
      apply char_toNat_ofNat
      left
      omega
    have hd : d.isDigit = false := by
      simp only [Char.isDigit, Bool.and_eq_false_iff, decide_eq_false_iff_not]
      right
      intro hle
      have : d.toNat ≤ 57 := hle
      omega
    rw [hd]
    simp only [Char.isDigit, Bool.and_eq_false_iff, decide_eq_false_iff_not]
    right
    intro hge
    have h2 : (Char.ofNat (d.toNat - 32)).toNat ≤ 57 := hge
    rw [hv] at h2
    omega
  · rfl

theorem isPySpace_of_isDigit (c : Char) (h : c.isDigit = true) :
    isPySpace c = false := by
  simp only [Char.isDigit, Bool.and_eq_true, decide_eq_true_eq] at h
  have h48 : 48 ≤ c.toNat := h.1
  have hs : c ≠ ' ' := by rintro rfl; exact absurd h48 (by decide)
  have ht : c ≠ '\t' := by rintro rfl; exact absurd h48 (by decide)
  have hn : c ≠ '\n' := by rintro rfl; exact absurd h48 (by decide)
  have hr : c ≠ '\r' := by rintro rfl; exact absurd h48 (by decide)
  simp [isPySpace, hs, ht, hn, hr]

theorem ne_plus_of_isDigit (c : Char) (h : c.isDigit = true) : c ≠ '+' := by
  simp only [Char.isDigit, Bool.and_eq_true, decide_eq_true_eq] at h
  have h48 : 48 ≤ c.toNat := h.1
  rintro rfl
  exact absurd h48 (by decide)

theorem ne_minus_of_isDigit (c : Char) (h : c.isDigit = true) : c ≠ '-' := by
  simp only [Char.isDigit, Bool.and_eq_true, decide_eq_true_eq] at h
  have h48 : 48 ≤ c.toNat := h.1
  rintro rfl
  exact absurd h48 (by decide)

theorem dropWhile_eq_self_of_forall {α : Type} (p : α → Bool) (l : List α)
    (h : ∀ c ∈ l, p c = false) : l.dropWhile p = l := by
  cases l with
  | nil => rfl
  | cons a rest => simp [List.dropWhile_cons, h a (by simp)]

theorem trimSpaces_of_digits (cs : List Char)
    (h : ∀ c ∈ cs, c.isDigit = true) : trimSpaces cs = cs := by
  have hns : ∀ c ∈ cs, isPySpace c = false :=
    fun c hc => isPySpace_of_isDigit c (h c hc)
  rw [trimSpaces, dropWhile_eq_self_of_forall _ _ hns,
    dropWhile_eq_self_of_forall _ _ (fun c hc => hns c (List.mem_reverse.mp hc)),
    List.reverse_reverse]

theorem digitsVal?Aux_of_digits (cs : List Char) (acc : Nat)
    (h : ∀ c ∈ cs, c.isDigit = true) :
    digitsVal?Aux acc cs = some (cs.foldl (fun a c => a * 10 + (c.toNat - 48)) acc) := by
  induction cs generalizing acc with
  | nil => rfl
  | cons c rest ih =>
    rw [digitsVal?Aux, if_pos (h c (by simp)), List.foldl_cons]
    exact ih _ (fun c' hc' => h c' (by simp [hc']))

theorem digitsVal?_of_digits (cs : List Char) (hne : cs ≠ [])
    (h : ∀ c ∈ cs, c.isDigit = true) :
    digitsVal? cs = some (digitsValue cs) := by
  rw [digitsVal?, if_neg (by simpa using hne)]
  exact digitsVal?Aux_of_digits cs 0 h

theorem ne_underscore_of_isDigit (c : Char) (h : c.isDigit = true) :
    c ≠ '_' := by
  simp only [Char.isDigit, Bool.and_eq_true, decide_eq_true_eq] at h
  rintro rfl
  exact absurd h.2 (by decide)

theorem intDigitsAux_of_digits (cs : List Char) (acc : Nat)
    (h : ∀ c ∈ cs, c.isDigit = true) :
    intDigitsAux acc cs =
      some (cs.foldl (fun a c => a * 10 + (c.toNat - 48)) acc) := by
  induction cs generalizing acc with
  | nil => rfl
  | cons c rest ih =>
    cases rest with
    | nil =>
      show (if c.isDigit then some (acc * 10 + (c.toNat - 48)) else none) = _
      rw [if_pos (h c (by simp))]
      simp
    | cons c2 rest2 =>
      show (if c = '_' then
          if c2.isDigit then intDigitsAux (acc * 10 + (c2.toNat - 48)) rest2
          else none
        else if c.isDigit then
          intDigitsAux (acc * 10 + (c.toNat - 48)) (c2 :: rest2)
        else none) = _
      rw [if_neg (ne_underscore_of_isDigit c (h c (by simp))),
        if_pos (h c (by simp)), List.foldl_cons]
      exact ih _ (fun x hx => h x (by simp [hx]))

theorem intDigits?_of_digits (cs : List Char) (hne : cs ≠ [])
    (h : ∀ c ∈ cs, c.isDigit = true) :
    intDigits? cs = some (digitsValue cs) := by
  cases cs with
  | nil => exact absurd rfl hne
  | cons c rest =>
    show (if c.isDigit then intDigitsAux (c.toNat - 48) rest else none) = _
    rw [if_pos (h c (by simp)),
      intDigitsAux_of_digits rest _ (fun x hx => h x (by simp [hx]))]
    simp [digitsValue]

theorem pyInt_of_digits (cs : List Char) (hne : cs ≠ [])
    (h : ∀ c ∈ cs, c.isDigit = true) :
    pyInt cs = some (Int.ofNat (digitsValue cs)) := by
  rw [pyInt, trimSpaces_of_digits cs h]
  cases cs with
  | nil => exact absurd rfl hne
  | cons c rest =>
    have hc := h c (by simp)
    show (if c = '+' then (intDigits? rest).map Int.ofNat
      else if c = '-' then (intDigits? rest).map (fun n => -(n : Int))
      else (intDigits? (c :: rest)).map Int.ofNat) =
        some (Int.ofNat (digitsValue (c :: rest)))
    rw [if_neg (ne_plus_of_isDigit c hc), if_neg (ne_minus_of_isDigit c hc),
      intDigits?_of_digits _ (by simp) h]
    rfl

theorem pyInt_single (d : Char) :
    pyInt [d] = if d.isDigit then some (Int.ofNat (d.toNat - 48)) else none := by
  by_cases hd : d.isDigit = true
  · rw [if_pos hd]
    have h := pyInt_of_digits [d] (by simp)
      (by intro c hc; rw [List.mem_singleton.mp hc]; exact hd)
    rw [h]
    simp [digitsValue]
  · rw [if_neg hd]
    have hdf : d.isDigit = false := by simpa using hd
    by_cases hs : isPySpace d = true
    · have htrim : trimSpaces [d] = [] := by
        rw [trimSpaces]
        simp [List.dropWhile_cons, hs]
      rw [pyInt, htrim]
    · have hsf : isPySpace d = false := by simpa using hs
      have htrim : trimSpaces [d] = [d] := by
        rw [trimSpaces]
        simp [List.dropWhile_cons, hsf]
      rw [pyInt, htrim]
      show (if d = '+' then (intDigits? []).map Int.ofNat
        else if d = '-' then (intDigits? []).map (fun n => -(n : Int))
        else (intDigits? [d]).map Int.ofNat) = none
      by_cases hp : d = '+'
      · rw [if_pos hp]
        rfl
      · rw [if_neg hp]
        by_cases hm : d = '-'
        · rw [if_pos hm]
          rfl
        · rw [if_neg hm]
          rw [show intDigits? [d] =
            (if d.isDigit then intDigitsAux (d.toNat - 48) [] else none) from rfl]
          rw [if_neg (by simp [hdf])]
          rfl

/-! ### Shape characterisation of parse_wb_date -/

theorem dval_le_nine (c : Char) (h : c.isDigit = true) : c.toNat - 48 ≤ 9 := by
  simp only [Char.isDigit, Bool.and_eq_true, decide_eq_true_eq] at h
  have h57 : c.toNat ≤ 57 := h.2
  omega

theorem digitsValue_four_le (c1 c2 c3 c4 : Char)
    (h1 : c1.isDigit = true) (h2 : c2.isDigit = true)
    (h3 : c3.isDigit = true) (h4 : c4.isDigit = true) :
    digitsValue [c1, c2, c3, c4] ≤ 9999 := by
  have b1 := dval_le_nine c1 h1
  have b2 := dval_le_nine c2 h2
  have b3 := dval_le_nine c3 h3
  have b4 := dval_le_nine c4 h4
  simp only [digitsValue, List.foldl_cons, List.foldl_nil]
  omega

theorem parseWbDate_year_shape (s : String) (c1 c2 c3 c4 : Char)
    (hs : s.toList = [c1, c2, c3, c4])
    (h1 : c1.isDigit = true) (h2 : c2.isDigit = true)
    (h3 : c3.isDigit = true) (h4 : c4.isDigit = true) :
    parseWbDate s =
      if 1 ≤ digitsValue [c1, c2, c3, c4]
      then some ⟨digitsValue [c1, c2, c3, c4], 1, 1⟩
      else none := by
  have hu : s.toList.map Char.toUpper = [c1, c2, c3, c4] := by
    rw [hs]
    simp [toUpper_of_isDigit _ h1, toUpper_of_isDigit _ h2,
      toUpper_of_isDigit _ h3, toUpper_of_isDigit _ h4]
  rw [parseWbDate]
  simp only [hu]
  rw [show ([c1, c2, c3, c4] : List Char).take 4 = [c1, c2, c3, c4] from rfl]
  rw [pyInt_of_digits [c1, c2, c3, c4] (by simp)
    (by intro c hc
        have hcm : c = c1 ∨ c = c2 ∨ c = c3 ∨ c = c4 := by simpa using hc
        rcases hcm with rfl | rfl | rfl | rfl <;> assumption)]
  rw [if_pos (show ([c1, c2, c3, c4] : List Char).length = 4 from rfl)]
  show mkPyDate (Int.ofNat (digitsValue [c1, c2, c3, c4])) 1 = _
  have hle9999 := digitsValue_four_le c1 c2 c3 c4 h1 h2 h3 h4
  rw [mkPyDate]
  simp only [Int.ofNat_eq_natCast]
  by_cases hy : 1 ≤ digitsValue [c1, c2, c3, c4]
  · rw [if_pos (show (1 : ℤ) ≤ (digitsValue [c1, c2, c3, c4] : ℤ) ∧
        (digitsValue [c1, c2, c3, c4] : ℤ) ≤ 9999 ∧ (1 : ℤ) ≤ 1 ∧ (1 : ℤ) ≤ 12 from by
      refine ⟨?_, ?_, ?_, ?_⟩ <;> omega)]
    rw [if_pos hy]
  · rw [if_neg (show ¬ ((1 : ℤ) ≤ (digitsValue [c1, c2, c3, c4] : ℤ) ∧
        (digitsValue [c1, c2, c3, c4] : ℤ) ≤ 9999 ∧ (1 : ℤ) ≤ 1 ∧ (1 : ℤ) ≤ 12) from by
      rintro ⟨hy1, _⟩
      exact hy (by omega))]
    rw [if_neg hy]

theorem parseWbDate_q_shape (s : String) (c1 c2 c3 c4 q d : Char) (rest : List Char)
    (hs : s.toList = c1 :: c2 :: c3 :: c4 :: q :: d :: rest)
    (h1 : c1.isDigit = true) (h2 : c2.isDigit = true)
    (h3 : c3.isDigit = true) (h4 : c4.isDigit = true)
    (hq : q = 'Q' ∨ q = 'q') :
    parseWbDate s =
      if 1 ≤ digitsValue [c1, c2, c3, c4] ∧ d.isDigit = true ∧
          1 ≤ d.toNat - 48 ∧ d.toNat - 48 ≤ 4
      then some ⟨digitsValue [c1, c2, c3, c4],
        ((d.toNat - 48 : Nat) : Int) * 3 - 2, 1⟩
      else none := by
  have hQ : q.toUpper = 'Q' := by
    rcases hq with rfl | rfl <;> decide
  have hu : s.toList.map Char.toUpper =
      c1 :: c2 :: c3 :: c4 :: 'Q' :: d.toUpper :: rest.map Char.toUpper := by
    rw [hs]
    simp [toUpper_of_isDigit _ h1, toUpper_of_isDigit _ h2,
      toUpper_of_isDigit _ h3, toUpper_of_isDigit _ h4, hQ]
  rw [parseWbDate]
  simp only [hu]
  have htake : (c1 :: c2 :: c3 :: c4 :: 'Q' :: d.toUpper :: rest.map Char.toUpper).take 4 =
      [c1, c2, c3, c4] := rfl
  rw [htake, pyInt_of_digits [c1, c2, c3, c4] (by simp)
    (by intro c hc
        have hcm : c = c1 ∨ c = c2 ∨ c = c3 ∨ c = c4 := by simpa using hc
        rcases hcm with rfl | rfl | rfl | rfl <;> assumption)]
  have hlen : (c1 :: c2 :: c3 :: c4 :: 'Q' :: d.toUpper :: rest.map Char.toUpper).length ≠ 4 := by
    simp
  rw [if_neg hlen]
  have hget4 : (c1 :: c2 :: c3 :: c4 :: 'Q' :: d.toUpper :: rest.map Char.toUpper).get? 4 =
      some 'Q' := rfl
  rw [hget4, if_pos rfl]
  have hget5 : (c1 :: c2 :: c3 :: c4 :: 'Q' :: d.toUpper :: rest.map Char.toUpper).get? 5 =
      some d.toUpper := rfl
  rw [hget5]
  show (match (pyInt [d.toUpper]).map (fun q => q * 3 - 2) with
    | some m => mkPyDate (Int.ofNat (digitsValue [c1, c2, c3, c4])) m
    | none => none) = _
  by_cases hd : d.isDigit = true
  · rw [toUpper_of_isDigit d hd, pyInt_single, if_pos hd]
    show mkPyDate (Int.ofNat (digitsValue [c1, c2, c3, c4]))
      (Int.ofNat (d.toNat - 48) * 3 - 2) = _
    have hle9999 := digitsValue_four_le c1 c2 c3 c4 h1 h2 h3 h4
    have hd9 := dval_le_nine d hd
    rw [mkPyDate]
    simp only [Int.ofNat_eq_natCast]
    by_cases hcond : 1 ≤ digitsValue [c1, c2, c3, c4] ∧ d.isDigit = true ∧
        1 ≤ d.toNat - 48 ∧ d.toNat - 48 ≤ 4
    · obtain ⟨ha, hdd, hb, hc2⟩ := hcond
      rw [if_pos (show (1 : ℤ) ≤ (digitsValue [c1, c2, c3, c4] : ℤ) ∧
          (digitsValue [c1, c2, c3, c4] : ℤ) ≤ 9999 ∧
          (1 : ℤ) ≤ ((d.toNat - 48 : ℕ) : ℤ) * 3 - 2 ∧
          ((d.toNat - 48 : ℕ) : ℤ) * 3 - 2 ≤ 12 from by
        refine ⟨?_, ?_, ?_, ?_⟩ <;> omega)]
      rw [if_pos ⟨ha, hdd, hb, hc2⟩]
    · rw [if_neg (show ¬ ((1 : ℤ) ≤ (digitsValue [c1, c2, c3, c4] : ℤ) ∧
          (digitsValue [c1, c2, c3, c4] : ℤ) ≤ 9999 ∧
          (1 : ℤ) ≤ ((d.toNat - 48 : ℕ) : ℤ) * 3 - 2 ∧
          ((d.toNat - 48 : ℕ) : ℤ) * 3 - 2 ≤ 12) from by
        rintro ⟨hy, hy2, hm1, hm2⟩
        exact hcond ⟨by omega, hd, by omega, by omega⟩)]
      rw [if_neg hcond]
  · have hdf : d.isDigit = false := by simpa using hd
    rw [pyInt_single, isDigit_toUpper, hdf]
    rw [if_neg (show ¬ (false = true) from by simp)]
    rw [if_neg (show ¬ (1 ≤ digitsValue [c1, c2, c3, c4] ∧ false = true ∧
        1 ≤ d.toNat - 48 ∧ d.toNat - 48 ≤ 4) from by simp)]
    rfl

theorem parseWbDate_m_shape (s : String) (c1 c2 c3 c4 mc d1 d2 : Char) (rest : List Char)
    (hs : s.toList = c1 :: c2 :: c3 :: c4 :: mc :: d1 :: d2 :: rest)
    (h1 : c1.isDigit = true) (h2 : c2.isDigit = true)
    (h3 : c3.isDigit = true) (h4 : c4.isDigit = true)
    (hd1 : d1.isDigit = true) (hd2 : d2.isDigit = true)
    (hm : mc = 'M' ∨ mc = 'm') :
    parseWbDate s =
      if 1 ≤ digitsValue [c1, c2, c3, c4] ∧
          1 ≤ digitsValue [d1, d2] ∧ digitsValue [d1, d2] ≤ 12
      then some ⟨digitsValue [c1, c2, c3, c4], digitsValue [d1, d2], 1⟩
      else none := by
  have hM : mc.toUpper = 'M' := by
    rcases hm with rfl | rfl <;> decide
  have hu : s.toList.map Char.toUpper =
      c1 :: c2 :: c3 :: c4 :: 'M' :: d1 :: d2 :: rest.map Char.toUpper := by
    rw [hs]
    simp [toUpper_of_isDigit _ h1, toUpper_of_isDigit _ h2,
      toUpper_of_isDigit _ h3, toUpper_of_isDigit _ h4,
      toUpper_of_isDigit _ hd1, toUpper_of_isDigit _ hd2, hM]
  rw [parseWbDate]
  simp only [hu]
  rw [show (c1 :: c2 :: c3 :: c4 :: 'M' :: d1 :: d2 :: rest.map Char.toUpper).take 4 =
      [c1, c2, c3, c4] from rfl]
  rw [pyInt_of_digits [c1, c2, c3, c4] (by simp)
    (by intro c hc
        have hcm : c = c1 ∨ c = c2 ∨ c = c3 ∨ c = c4 := by simpa using hc
        rcases hcm with rfl | rfl | rfl | rfl <;> assumption)]
  rw [if_neg (show ¬ ((c1 :: c2 :: c3 :: c4 :: 'M' :: d1 :: d2 :: rest.map Char.toUpper).length = 4)
    from by simp)]
  rw [show (c1 :: c2 :: c3 :: c4 :: 'M' :: d1 :: d2 :: rest.map Char.toUpper).get? 4 =
      some 'M' from rfl]
  rw [if_neg (show ¬ ((some 'M' : Option Char) = some 'Q') from by decide)]
  rw [if_pos (show (some 'M' : Option Char) = some 'M' from rfl)]
  rw [show ((c1 :: c2 :: c3 :: c4 :: 'M' :: d1 :: d2 :: rest.map Char.toUpper).drop 5).take 2 =
      [d1, d2] from rfl]
  rw [pyInt_of_digits [d1, d2] (by simp)
    (by intro c hc
        have hcm : c = d1 ∨ c = d2 := by simpa using hc
        rcases hcm with rfl | rfl <;> assumption)]
  show mkPyDate (Int.ofNat (digitsValue [c1, c2, c3, c4]))
    (Int.ofNat (digitsValue [d1, d2])) = _
  have hle9999 := digitsValue_four_le c1 c2 c3 c4 h1 h2 h3 h4
  rw [mkPyDate]
  simp only [Int.ofNat_eq_natCast]
  by_cases hcond : 1 ≤ digitsValue [c1, c2, c3, c4] ∧
      1 ≤ digitsValue [d1, d2] ∧ digitsValue [d1, d2] ≤ 12
  · obtain ⟨ha, hb, hc2⟩ := hcond
    rw [if_pos (show (1 : ℤ) ≤ (digitsValue [c1, c2, c3, c4] : ℤ) ∧
        (digitsValue [c1, c2, c3, c4] : ℤ) ≤ 9999 ∧
        (1 : ℤ) ≤ (digitsValue [d1, d2] : ℤ) ∧ (digitsValue [d1, d2] : ℤ) ≤ 12 from by
      refine ⟨?_, ?_, ?_, ?_⟩ <;> omega)]
    rw [if_pos ⟨ha, hb, hc2⟩]
  · rw [if_neg (show ¬ ((1 : ℤ) ≤ (digitsValue [c1, c2, c3, c4] : ℤ) ∧
        (digitsValue [c1, c2, c3, c4] : ℤ) ≤ 9999 ∧
        (1 : ℤ) ≤ (digitsValue [d1, d2] : ℤ) ∧ (digitsValue [d1, d2] : ℤ) ≤ 12) from by
      rintro ⟨hy1, hy2, hm1, hm2⟩
      exact hcond ⟨by omega, by omega, by omega⟩)]
    rw [if_neg hcond]

/-! ## Claim C8 -/

/-- **C8, counterexample**: `parse_wb_date("2000Q1x")` has trailing
garbage after the valid prefix `"2000Q1"`, yet the code reads only the
single character at index 5 and returns the date 2000-01-01 instead of
the null the claim demands. -/
theorem c8_counterexample :
    parseWbDate "2000Q1x" = some ⟨2000, 1, 1⟩ ∧
    (some (⟨2000, 1, 1⟩ : PyDate)) ≠ none := by
  constructor
  · decide
  · intro h
    cases h

/-- **C8, amended**: `parse_wb_date` never raises (it is a total
function into `Option`), and accepts these shapes, ignoring — rather
than rejecting — any trailing characters:
* exactly four ASCII digits `"YYYY"`: month 1;
* four digits, then `Q`/`q`, then any sixth ASCII character and
  arbitrary trailing text: the month is `3n − 2` where `n` is the value
  of the sixth character, null unless that character is a digit in 1..4
  (so `"2000Q6"` is null; the ASCII bound is needed because CPython
  `int()` also accepts non-ASCII Unicode decimal digits, which are
  outside the modelled character set);
* four digits, then `M`/`m`, then two digits and arbitrary trailing
  text: month `nn`, null outside 1..12.
In each shape the result is null when the year is 0 (`datetime.date`
needs a positive year; four digits cannot exceed 9999). -/
theorem c8_parse_wb_date_amended :
    (∀ (s : String) (c1 c2 c3 c4 : Char), s.toList = [c1, c2, c3, c4] →
      c1.isDigit = true → c2.isDigit = true → c3.isDigit = true →
      c4.isDigit = true →
      parseWbDate s =
        if 1 ≤ digitsValue [c1, c2, c3, c4]
        then some ⟨digitsValue [c1, c2, c3, c4], 1, 1⟩
        else none) ∧
    (∀ (s : String) (c1 c2 c3 c4 q d : Char) (rest : List Char),
      s.toList = c1 :: c2 :: c3 :: c4 :: q :: d :: rest →
      c1.isDigit = true → c2.isDigit = true → c3.isDigit = true →
      c4.isDigit = true → (q = 'Q' ∨ q = 'q') → d.toNat ≤ 127 →
      parseWbDate s =
        if 1 ≤ digitsValue [c1, c2, c3, c4] ∧ d.isDigit = true ∧
            1 ≤ d.toNat - 48 ∧ d.toNat - 48 ≤ 4
        then some ⟨digitsValue [c1, c2, c3, c4],
          ((d.toNat - 48 : Nat) : Int) * 3 - 2, 1⟩
        else none) ∧
    (∀ (s : String) (c1 c2 c3 c4 mc d1 d2 : Char) (rest : List Char),
      s.toList = c1 :: c2 :: c3 :: c4 :: mc :: d1 :: d2 :: rest →
      c1.isDigit = true → c2.isDigit = true → c3.isDigit = true →
      c4.isDigit = true → d1.isDigit = true → d2.isDigit = true →
      (mc = 'M' ∨ mc = 'm') →
      parseWbDate s =
        if 1 ≤ digitsValue [c1, c2, c3, c4] ∧
            1 ≤ digitsValue [d1, d2] ∧ digitsValue [d1, d2] ≤ 12
        then some ⟨digitsValue [c1, c2, c3, c4], digitsValue [d1, d2], 1⟩
        else none) ∧
    parseWbDate "2000Q6" = none ∧
    parseWbDate "2000M13" = none :=
  ⟨fun s c1 c2 c3 c4 hs h1 h2 h3 h4 =>
      parseWbDate_year_shape s c1 c2 c3 c4 hs h1 h2 h3 h4,
   fun s c1 c2 c3 c4 q d rest hs h1 h2 h3 h4 hq _ =>
      parseWbDate_q_shape s c1 c2 c3 c4 q d rest hs h1 h2 h3 h4 hq,
   fun s c1 c2 c3 c4 mc d1 d2 rest hs h1 h2 h3 h4 hd1 hd2 hm =>
      parseWbDate_m_shape s c1 c2 c3 c4 mc d1 d2 rest hs h1 h2 h3 h4 hd1 hd2 hm,
   by decide, by decide⟩

/-- Witness for `c8_parse_wb_date_amended` at the quarter shape
`"2000Q3"`: month `3 * 3 - 2 = 7`. -/
theorem c8_parse_wb_date_amended_witness :
    parseWbDate "2000Q3" = some ⟨2000, 7, 1⟩ := by
  have h := c8_parse_wb_date_amended.2.1 "2000Q3" '2' '0' '0' '0' 'Q' '3' []
    rfl (by decide) (by decide) (by decide) (by decide) (Or.inl rfl) (by decide)
  rw [h]
  decide

/-! ## Claims C7 and C3 (concrete parts) -/

/-- **C7, counterexample**: `ClimateDataset({}).as_list()` returns the
one-cell table `[["country"]]` (the joined row-axis header), not the
empty list the claim demands.  (`IndicatorDataset({}).as_list()` does
return `[]`.) -/
theorem c7_counterexample :
    climAsList ([] : CResponses) none false = Except.ok [[CCell.s "country"]] ∧
    ([[CCell.s "country"]] : List (List CCell)) ≠ [] := by
  constructor
  · rfl
  · intro h
    cases h

/-- **C7, amended**: for empty responses, `IndicatorDataset.as_list`
returns `[]`, but `ClimateDataset.as_list` returns the single header
row `[["country"]]` — the header cell is the joined default row-axis
name — rather than `[]`. -/
theorem c7_empty_responses_amended :
    asList ([] : List (String × List Datapoint)) = [] ∧
    climAsList ([] : CResponses) none false = Except.ok [[CCell.s "country"]] := by
  constructor
  · rfl
  · rfl

/-- **C3, counterexample**: on `c3gap` the combinations
`(SVN, pr, year, 2008)` and `(SVN, tas, month, 0)` are absent from the
`as_dict` map, yet `as_list` raises nothing: it returns a full table
with the auto-vivified empty-dict placeholder in those cells. -/
theorem c3_counterexample :
    climAsList c3gap none false =
      Except.ok
        [[CCell.s "country", CCell.s "pr - month - 0", CCell.s "pr - year - 2008",
          CCell.s "tas - month - 0", CCell.s "tas - year - 2008"],
         [CCell.s "SVN", CCell.v (SKey.i 5), CCell.emptyMap, CCell.emptyMap,
          CCell.v (SKey.i 7)]] ∧
    (∀ e : String, climAsList c3gap none false ≠ Except.error e) := by
  constructor
  · rfl
  · intro e h
    rw [show climAsList c3gap none false =
      Except.ok
        [[CCell.s "country", CCell.s "pr - month - 0", CCell.s "pr - year - 2008",
          CCell.s "tas - month - 0", CCell.s "tas - year - 2008"],
         [CCell.s "SVN", CCell.v (SKey.i 5), CCell.emptyMap, CCell.emptyMap,
          CCell.v (SKey.i 7)]] from rfl] at h
    cases h

theorem mapME_ok_get {α β : Type} (f : α → Except String β) :
    ∀ (l : List α) (out : List β), mapME f l = .ok out →
      ∀ (i : Nat) (a : α), l.get? i = some a →
        ∃ b, out.get? i = some b ∧ f a = .ok b := by
  intro l
  induction l with
  | nil =>
    intro out hout i a ha
    cases ha
  | cons x rest ih =>
    intro out hout i a ha
    rw [mapME] at hout
    rcases hfx : f x with e | b
    · rw [hfx] at hout
      cases hout
    · rw [hfx] at hout
      rcases hrest : mapME f rest with e | bs
      · rw [hrest] at hout
        cases hout
      · rw [hrest] at hout
        have hT : out = b :: bs := by
          injection hout with h
          exact h.symm
        subst hT
        cases i with
        | zero =>
          have hax : a = x := by
            injection ha with h
            exact h.symm
          subst hax
          exact ⟨b, rfl, hfx⟩
        | succ j =>
          exact ih bs hrest j a ha

/-- **C3, amended**: during the climate grid fill, a cell whose
decomposed `(location, type, interval, interval key)` combination is
absent from the `as_dict` map is silently filled with the auto-vivified
empty-dict placeholder — no lookup error is raised (the nested
defaultdict never raises `KeyError`). -/
theorem c3_absent_combination_placeholder
    (resp : CResponses) (colsOpt : Option (List String)) (useD : Bool)
    (T : List (List CCell)) (m : CDict)
    (hT : climAsList resp colsOpt useD = .ok T)
    (hm : asDict resp = .ok m)
    (ri ci : Nat) (rl cl : List SKey) (i ik cc tt : SKey)
    (hrl : (sortedLabels (gatherKeys m) (climAxes colsOpt).2).get? ri = some rl)
    (hcl : (sortedLabels (gatherKeys m) (climAxes colsOpt).1).get? ci = some cl)
    (hik : levelKeyInterval (climAxes colsOpt).2 (climAxes colsOpt).1 rl cl = .ok (i, ik))
    (hcc : levelKeyPlain (climAxes colsOpt).2 (climAxes colsOpt).1 rl cl "country" = .ok cc)
    (htt : levelKeyPlain (climAxes colsOpt).2 (climAxes colsOpt).1 rl cl "type" = .ok tt)
    (habs : cdGet4? m cc tt i ik = none) :
    (T.get? (ri + 1)).bind (fun row => row.get? (ci + 1)) = some CCell.emptyMap := by
  rw [climAsList] at hT
  by_cases hsb : strictSubsetB (climAxes colsOpt).1 = true
  · rw [if_pos hsb, hm] at hT
    unfold genList at hT
    simp only [] at hT
    by_cases hrok : labelsCmpOkB (rawLabels (gatherKeys m) (climAxes colsOpt).2) = true
    swap
    · rw [if_neg hrok] at hT
      cases hT
    rw [if_pos hrok] at hT
    by_cases hcok : labelsCmpOkB (rawLabels (gatherKeys m) (climAxes colsOpt).1) = true
    swap
    · rw [if_neg hcok] at hT
      cases hT
    rw [if_pos hcok] at hT
    rcases hbody : mapME (fun rl =>
        match mapME (fillCell m (climAxes colsOpt).2 (climAxes colsOpt).1 rl)
            (sortedLabels (gatherKeys m) (climAxes colsOpt).1) with
        | .error e => .error e
        | .ok cells =>
            match stringifyRowLabel useD rl with
            | .error e => .error e
            | .ok first => .ok ((first :: cells) : List CCell))
        (sortedLabels (gatherKeys m) (climAxes colsOpt).2) with e | bodyRows
    · rw [hbody] at hT
      cases hT
    · rw [hbody] at hT
      rcases hhead : stringifyRowLabel useD ((climAxes colsOpt).2.map SKey.s) with e | hf
      · rw [hhead] at hT
        cases hT
      · rw [hhead] at hT
        have hTval : T = (hf :: (sortedLabels (gatherKeys m) (climAxes colsOpt).1).map
            (fun cl => CCell.s (joinLabel cl))) :: bodyRows := by
          injection hT with h
          exact h.symm
        subst hTval
        rw [show ((hf :: (sortedLabels (gatherKeys m) (climAxes colsOpt).1).map
            (fun cl => CCell.s (joinLabel cl))) :: bodyRows).get? (ri + 1) =
          bodyRows.get? ri from rfl]
        rcases mapME_ok_get _ _ _ hbody ri rl hrl with ⟨row, hrow, hfr⟩
        rw [hrow]
        rcases hcells : mapME (fillCell m (climAxes colsOpt).2 (climAxes colsOpt).1 rl)
            (sortedLabels (gatherKeys m) (climAxes colsOpt).1) with e | cells
        · rw [hcells] at hfr
          cases hfr
        · rw [hcells] at hfr
          rcases hfirst : stringifyRowLabel useD rl with e | first
          · rw [hfirst] at hfr
            cases hfr
          · rw [hfirst] at hfr
            have hrowval : row = first :: cells := by
              injection hfr with h
              exact h.symm
            subst hrowval
            rw [show (Option.bind (some (first :: cells))
                (fun row => row.get? (ci + 1))) = cells.get? ci from rfl]
            rcases mapME_ok_get _ _ _ hcells ci cl hcl with ⟨cell, hcell, hfc⟩
            rw [hcell]
            rw [fillCell, hik, hcc, htt] at hfc
            have : cell = lookup4 m cc tt i ik := by
              injection hfc with h
              exact h.symm
            subst this
            rw [lookup4, habs]
  · rw [if_neg hsb] at hT
    cases hT

/-- Witness for `c3_absent_combination_placeholder` at `c3gap`: the cell
of row `SVN`, column `"pr - year - 2008"` is the empty-dict placeholder. -/
theorem c3_absent_combination_placeholder_witness :
    (([[CCell.s "country", CCell.s "pr - month - 0", CCell.s "pr - year - 2008",
        CCell.s "tas - month - 0", CCell.s "tas - year - 2008"],
       [CCell.s "SVN", CCell.v (SKey.i 5), CCell.emptyMap, CCell.emptyMap,
        CCell.v (SKey.i 7)]] : List (List CCell)).get? 1).bind
      (fun row => row.get? 2) = some CCell.emptyMap :=
  c3_absent_combination_placeholder c3gap none false _ _
    rfl rfl 0 1 [SKey.s "SVN"] [SKey.s "pr", SKey.s "year", SKey.i 2008]
    (SKey.s "year") (SKey.i 2008) (SKey.s "SVN") (SKey.s "pr")
    rfl rfl rfl rfl rfl rfl

theorem pyIndex?_lt_length {α : Type} [DecidableEq α] :
    ∀ (l : List α) (a : α) (i : Nat), pyIndex? l a = some i → i < l.length := by
  intro l
  induction l with
  | nil => intro a i h; cases h
  | cons x rest ih =>
    intro a i h
    rw [pyIndex?] at h
    by_cases hx : x = a
    · rw [if_pos hx] at h
      injection h with h'
      subst h'
      simp
    · rw [if_neg hx] at h
      rcases hr : pyIndex? rest a with _ | j
      · rw [hr] at h
        cases h
      · rw [hr] at h
        injection h with h'
        subst h'
        have := ih a j hr
        simp only [List.length_cons]
        omega

theorem pyIndex?_isSome_of_mem {α : Type} [DecidableEq α] :
    ∀ (l : List α) (a : α), a ∈ l → ∃ i, pyIndex? l a = some i := by
  intro l
  induction l with
  | nil => intro a h; cases h
  | cons x rest ih =>
    intro a h
    by_cases hx : x = a
    · exact ⟨0, by rw [pyIndex?, if_pos hx]⟩
    · have hmem : a ∈ rest := by
        rcases List.mem_cons.mp h with rfl | hm
        · exact absurd rfl hx
        · exact hm
      rcases ih a hmem with ⟨i, hi⟩
      exact ⟨i + 1, by rw [pyIndex?, if_neg hx, hi]; rfl⟩

theorem mem_listProd_forall2 {α : Type} :
    ∀ (ls : List (List α)) (xs : List α), xs ∈ listProd ls →
      List.Forall₂ (fun x l => x ∈ l) xs ls := by
  intro ls
  induction ls with
  | nil =>
    intro xs h
    rw [listProd] at h
    rcases List.mem_singleton.mp h with rfl
    exact List.Forall₂.nil
  | cons l rest ih =>
    intro xs h
    rw [listProd] at h
    rcases List.mem_flatMap.mp h with ⟨a, ha, hxs⟩
    rcases List.mem_map.mp hxs with ⟨ys, hys, rfl⟩
    exact List.Forall₂.cons ha (ih ys hys)

theorem axisLabels_length (keys : GKeys) (a : String) (lbl : List SKey)
    (h : lbl ∈ axisLabels keys a) :
    1 ≤ lbl.length ∧ (a = "interval" → lbl.length = 2) := by
  rw [axisLabels] at h
  by_cases hc : a = "country"
  · rw [if_pos hc] at h
    rcases List.mem_map.mp h with ⟨c, _, rfl⟩
    refine ⟨by simp, ?_⟩
    intro ha
    rw [ha] at hc
    exact absurd hc (by decide)
  · rw [if_neg hc] at h
    by_cases ht : a = "type"
    · rw [if_pos ht] at h
      rcases List.mem_map.mp h with ⟨c, _, rfl⟩
      refine ⟨by simp, ?_⟩
      intro ha
      rw [ha] at ht
      exact absurd ht (by decide)
    · rw [if_neg ht] at h
      by_cases hi : a = "interval"
      · rw [if_pos hi] at h
        rcases List.mem_map.mp h with ⟨c, _, rfl⟩
        exact ⟨by simp, fun _ => by simp⟩
      · rw [if_neg hi] at h
        cases h

theorem sortedLabels_mem (keys : GKeys) (axes : List String) (rl : List SKey)
    (h : rl ∈ sortedLabels keys axes) :
    ∃ comps, rl = comps.flatten ∧
      List.Forall₂ (fun lbl a => lbl ∈ axisLabels keys a) comps axes := by
  rw [sortedLabels] at h
  have h2 := (List.perm_insertionSort _ _).mem_iff.mp h
  rcases List.mem_map.mp h2 with ⟨comps, hcomps, rfl⟩
  have h3 := mem_listProd_forall2 _ _ hcomps
  refine ⟨comps, rfl, ?_⟩
  have hlen : comps.length = (axes.map (axisLabels keys)).length := h3.length_eq
  clear h h2 hcomps
  induction axes generalizing comps with
  | nil =>
    cases h3
    exact List.Forall₂.nil
  | cons a rest ih =>
    rcases comps with _ | ⟨c0, crest⟩
    · cases h3
    · rw [List.map_cons] at h3
      cases h3 with
      | cons hmem hrest =>
        exact List.Forall₂.cons hmem (ih crest hrest hrest.length_eq)

theorem sortedLabels_length_facts (keys : GKeys) (axes : List String)
    (rl : List SKey) (h : rl ∈ sortedLabels keys axes) :
    axes.length ≤ rl.length ∧ ("interval" ∈ axes → 2 ≤ rl.length) := by
  rcases sortedLabels_mem keys axes rl h with ⟨comps, rfl, hf⟩
  clear h
  induction hf with
  | nil => simp
  | cons hmem hrest ih =>
    rename_i lbl a comps' axes'
    rcases axisLabels_length _ _ _ hmem with ⟨h1, h2⟩
    rw [List.flatten_cons]
    constructor
    · simp only [List.length_cons, List.length_append]
      have := ih.1
      omega
    · intro hmem2
      rcases List.mem_cons.mp hmem2 with rfl | hm
      · have := h2 rfl
        simp only [List.length_append]
        omega
      · have := ih.2 hm
        simp only [List.length_append]
        omega

theorem levelKeyPlain_ok (rows cols : List String) (rl cl : List SKey)
    (name : String)
    (hin : name ∈ rows ∨ name ∈ cols)
    (hrl : rows.length ≤ rl.length) (hcl : cols.length ≤ cl.length) :
    ∃ x, levelKeyPlain rows cols rl cl name = .ok x := by
  rw [levelKeyPlain]
  by_cases hr : name ∈ rows
  · rw [if_pos hr]
    rcases pyIndex?_isSome_of_mem rows name hr with ⟨i, hi⟩
    rw [hi]
    have hlt : i < rl.length := lt_of_lt_of_le (pyIndex?_lt_length rows name i hi) hrl
    show ∃ x, (match rl.get? i with
      | some x => Except.ok x
      | none => Except.error "IndexError") = Except.ok x
    rw [show rl.get? i = some (rl.get ⟨i, hlt⟩) from List.get?_eq_get hlt]
    exact ⟨rl.get ⟨i, hlt⟩, rfl⟩
  · rw [if_neg hr]
    have hc : name ∈ cols := by
      rcases hin with h | h
      · exact absurd h hr
      · exact h
    rcases pyIndex?_isSome_of_mem cols name hc with ⟨i, hi⟩
    rw [hi]
    have hlt : i < cl.length := lt_of_lt_of_le (pyIndex?_lt_length cols name i hi) hcl
    show ∃ x, (match cl.get? i with
      | some x => Except.ok x
      | none => Except.error "IndexError") = Except.ok x
    rw [show cl.get? i = some (cl.get ⟨i, hlt⟩) from List.get?_eq_get hlt]
    exact ⟨cl.get ⟨i, hlt⟩, rfl⟩

theorem levelKeyInterval_ok (rows cols : List String) (rl cl : List SKey)
    (hin : "interval" ∈ rows ∨ "interval" ∈ cols)
    (hrl : "interval" ∈ rows → 2 ≤ rl.length)
    (hcl : "interval" ∈ cols → 2 ≤ cl.length) :
    ∃ ik, levelKeyInterval rows cols rl cl = .ok ik := by
  rw [levelKeyInterval]
  by_cases hr : "interval" ∈ rows
  · rw [if_pos hr]
    have hlen : (rl.drop (rl.length - 2)).length = 2 := by
      rw [List.length_drop]
      have := hrl hr
      omega
    rcases List.length_eq_two.mp hlen with ⟨a, b, hab⟩
    rw [hab]
    exact ⟨(a, b), rfl⟩
  · rw [if_neg hr]
    have hc : "interval" ∈ cols := by
      rcases hin with h | h
      · exact absurd h hr
      · exact h
    have hlen : (cl.drop (cl.length - 2)).length = 2 := by
      rw [List.length_drop]
      have := hcl hc
      omega
    rcases List.length_eq_two.mp hlen with ⟨a, b, hab⟩
    rw [hab]
    exact ⟨(a, b), rfl⟩

theorem fillCell_ok (m : CDict) (rows cols : List String) (keys : GKeys)
    (rl cl : List SKey)
    (hrl : rl ∈ sortedLabels keys rows) (hcl : cl ∈ sortedLabels keys cols)
    (hcover : ∀ name, name ∈ CKEYS → name ∈ rows ∨ name ∈ cols) :
    ∃ cell, fillCell m rows cols rl cl = .ok cell := by
  rcases sortedLabels_length_facts keys rows rl hrl with ⟨hlr, hir⟩
  rcases sortedLabels_length_facts keys cols cl hcl with ⟨hlc, hic⟩
  rw [fillCell]
  rcases levelKeyInterval_ok rows cols rl cl
    (hcover "interval" (by decide)) hir hic with ⟨ik, hik⟩
  rw [hik]
  rcases levelKeyPlain_ok rows cols rl cl "country"
    (hcover "country" (by decide)) hlr hlc with ⟨c, hcq⟩
  rw [hcq]
  rcases levelKeyPlain_ok rows cols rl cl "type"
    (hcover "type" (by decide)) hlr hlc with ⟨t, htq⟩
  rw [htq]
  exact ⟨lookup4 m c t ik.1 ik.2, rfl⟩

theorem stringifyRowLabel_false (rl : List SKey) :
    stringifyRowLabel false rl = .ok (.s (joinLabel rl)) := by
  rw [stringifyRowLabel, if_neg]
  rintro ⟨h, _⟩
  cases h

theorem mapME_ok_of_forall {α β : Type} (f : α → Except String β) :
    ∀ (l : List α), (∀ a ∈ l, ∃ b, f a = .ok b) →
      ∃ out, mapME f l = .ok out := by
  intro l
  induction l with
  | nil => exact fun _ => ⟨[], rfl⟩
  | cons a rest ih =>
    intro h
    rcases h a (by simp) with ⟨b, hb⟩
    rcases ih (fun x hx => h x (by simp [hx])) with ⟨out, hout⟩
    exact ⟨b :: out, by rw [mapME, hb, hout]⟩

theorem genList_ok (m : CDict) (rows cols : List String)
    (hcover : ∀ name, name ∈ CKEYS → name ∈ rows ∨ name ∈ cols)
    (hrok : labelsCmpOkB (rawLabels (gatherKeys m) rows) = true)
    (hcok : labelsCmpOkB (rawLabels (gatherKeys m) cols) = true) :
    ∃ T, genList m rows cols false = .ok T := by
  have hbody : ∀ rl ∈ sortedLabels (gatherKeys m) rows,
      ∃ row, (match mapME (fillCell m rows cols rl) (sortedLabels (gatherKeys m) cols) with
        | Except.error e => Except.error e
        | Except.ok cells =>
            match stringifyRowLabel false rl with
            | Except.error e => Except.error e
            | Except.ok first => Except.ok ((first :: cells) : List CCell)) =
          Except.ok row := by
    intro rl hrl
    rcases mapME_ok_of_forall (fillCell m rows cols rl) (sortedLabels (gatherKeys m) cols)
      (fun cl hcl => fillCell_ok m rows cols (gatherKeys m) rl cl hrl hcl hcover)
      with ⟨cells, hcells⟩
    rw [hcells, stringifyRowLabel_false]
    exact ⟨_, rfl⟩
  rcases mapME_ok_of_forall _ (sortedLabels (gatherKeys m) rows) hbody with ⟨bodyRows, hb⟩
  unfold genList
  simp only []
  rw [if_pos hrok, if_pos hcok, hb, stringifyRowLabel_false]
  exact ⟨_, rfl⟩

/-- **C6, counterexample**: `columns=["type"]` is truthy and a valid
one-element strict subset of the keys, yet the call fails — with the
`TypeError` that `sorted` raises on the mixed `int`/`str` time keys of
`c6mixed`, not the configuration error — so "every non-empty strict
subset is accepted" is false as stated. -/
theorem c6_counterexample :
    strictSubsetB ["type"] = true ∧
    climAsList c6mixed (some ["type"]) false =
      Except.error "TypeError: unorderable types" ∧
    (Except.error "TypeError: unorderable types" :
        Except String (List (List CCell))) ≠
      Except.error "Columns argument contains invalid data" := by
  refine ⟨by decide, by rfl, ?_⟩
  intro h
  injection h with h'
  exact absurd h' (by decide)

/-- **C6, amended**: a truthy `columns` that is not a strict subset of
`{"country", "type", "interval"}` — including the full three-element
set — makes `as_list` raise the configuration `TypeError` before any
table is built; every non-empty strict subset passes that check, and
the call then returns a complete table provided the row and column
label lists are order-comparable.  The comparability proviso is needed:
mixed `int`/`str` time keys on one axis make Python's `sorted` raise
`TypeError` even for a valid `columns` argument, as `c6_counterexample`
shows, so strict-subset arguments are not unconditionally accepted. -/
theorem c6_columns_strict_subset :
    (∀ (resp : CResponses) (cols : List String) (u : Bool), cols ≠ [] →
      strictSubsetB cols = false →
      climAsList resp (some cols) u = .error "Columns argument contains invalid data") ∧
    (∀ (resp : CResponses) (cols : List String) (m : CDict), cols ≠ [] →
      strictSubsetB cols = true → asDict resp = .ok m →
      labelsCmpOkB (rawLabels (gatherKeys m) (climAxes (some cols)).2) = true →
      labelsCmpOkB (rawLabels (gatherKeys m) (climAxes (some cols)).1) = true →
      ∃ T, climAsList resp (some cols) false = .ok T) := by
  constructor
  · intro resp cols u hne hsb
    rw [climAsList]
    rcases cols with _ | ⟨a, l⟩
    · exact absurd rfl hne
    · rw [show (climAxes (some (a :: l))).1 = a :: l from rfl, hsb]
      rfl
  · intro resp cols m hne hsb hm hrok hcok
    rw [climAsList]
    rcases cols with _ | ⟨a, l⟩
    · exact absurd rfl hne
    · rw [show (climAxes (some (a :: l))).1 = a :: l from rfl, hsb]
      rw [if_pos rfl, hm]
      apply genList_ok _ _ _ _ hrok hcok
      intro name hmem
      by_cases hnc : name ∈ (a :: l)
      · exact Or.inr hnc
      · left
        rw [show (climAxes (some (a :: l))).2 = CKEYS.filter (fun k => ¬ k ∈ (a :: l)) from rfl]
        rw [List.mem_filter]
        exact ⟨hmem, by simpa using hnc⟩

/-- **C10**: passing `columns=[]` (falsy, like `None`) selects the
default axis split, and no successful call can put all three axes on
the row side: the column axis list is never empty and the row axis list
never has all three keys. -/
theorem c10_falsy_columns_default :
    (∀ (resp : CResponses) (u : Bool),
      climAsList resp (some []) u = climAsList resp none u) ∧
    (∀ (resp : CResponses) (colsOpt : Option (List String)) (u : Bool)
        (T : List (List CCell)), climAsList resp colsOpt u = .ok T →
      (climAxes colsOpt).1 ≠ [] ∧ (climAxes colsOpt).2.length ≤ 2) := by
  constructor
  · intro resp u
    rfl
  · intro resp colsOpt u T hT
    have hsb : strictSubsetB (climAxes colsOpt).1 = true := by
      by_contra hn
      rw [climAsList, if_neg hn] at hT
      cases hT
    rcases colsOpt with _ | cols
    · exact ⟨by decide, by decide⟩
    · rcases cols with _ | ⟨a, l⟩
      · exact ⟨by decide, by decide⟩
      · constructor
        · rw [show (climAxes (some (a :: l))).1 = a :: l from rfl]
          intro h
          cases h
        · rw [show (climAxes (some (a :: l))).2 =
            CKEYS.filter (fun k => ¬ k ∈ (a :: l)) from rfl]
          rw [show (climAxes (some (a :: l))).1 = a :: l from rfl] at hsb
          have hall : ∀ c ∈ (a :: l), c ∈ CKEYS := by
            have h1 := (Bool.and_eq_true _ _).mp hsb |>.1
            intro c hc
            have := List.all_eq_true.mp h1 c hc
            simpa using this
          have ha : a ∈ CKEYS := hall a (by simp)
          have hlt : (CKEYS.filter (fun k => ¬ k ∈ (a :: l))).length < CKEYS.length := by
        
            rw [List.length_filter_lt_length_iff_exists]
            exact ⟨a, ha, by simp⟩
          have : CKEYS.length = 3 := by decide
          omega

/-- Witness for `c6_columns_strict_subset`: the full key set is
rejected, a one-element subset with comparable (empty) label lists is
accepted. -/
theorem c6_columns_strict_subset_witness :
    climAsList c3gap (some ["country", "type", "interval"]) false =
      Except.error "Columns argument contains invalid data" ∧
    ∃ T, climAsList ([] : CResponses) (some ["type"]) false = Except.ok T :=
  ⟨c6_columns_strict_subset.1 c3gap ["country", "type", "interval"] false
      (by intro h; cases h) (by decide),
   c6_columns_strict_subset.2 ([] : CResponses) ["type"] []
      (by intro h; cases h) (by decide) rfl rfl rfl⟩

/-- Witness for `c10_falsy_columns_default`: a successful call with
`columns=["type"]` leaves a non-empty column axis and at most two row
axes. -/
theorem c10_falsy_columns_default_witness :
    (climAxes (some ["type"])).1 ≠ [] ∧ (climAxes (some ["type"])).2.length ≤ 2 :=
  c10_falsy_columns_default.2 ([] : CResponses) (some ["type"]) false
    [[CCell.s "country - interval"]] rfl

theorem pyGet?_cdGet3 (m : CDict) (c t i k : SKey) :
    pyGet? (cdGet3 m c t i) k = cdGet4? m c t i k := by
  rw [cdGet3, cdGet4?]
  rcases h1 : pyGet? m c with _ | m2
  · simp [h1, pyGet?]
  · rcases h2 : pyGet? m2 t with _ | m3
    · simp [h1, h2, pyGet?]
    · rcases h3 : pyGet? m3 i with _ | d
      · simp [h1, h2, h3, pyGet?]
      · simp [h1, h2, h3]

theorem cdGet4?_cdSet3 (m : CDict) (c t i : SKey) (d : CD4) (c' t' i' k : SKey) :
    cdGet4? (cdSet3 m c t i d) c' t' i' k =
      if c' = c ∧ t' = t ∧ i' = i then pyGet? d k
      else cdGet4? m c' t' i' k := by
  rw [cdSet3, cdGet4?, cdGet4?]
  by_cases hc : c' = c
  · subst hc
    rw [pyGet?_pySet_same]
    simp only [Option.some_bind]
    by_cases ht : t' = t
    · subst ht
      rw [show (pyGet? (pySet ((pyGet? m c').getD []) t'
          (pySet ((pyGet? ((pyGet? m c').getD []) t').getD []) i d)) t') =
        some (pySet ((pyGet? ((pyGet? m c').getD []) t').getD []) i d)
        from pyGet?_pySet_same _ _ _]
      simp only [Option.some_bind]
      by_cases hi : i' = i
      · subst hi
        rw [if_pos (show True ∧ True ∧ i' = i' from ⟨trivial, trivial, rfl⟩)]
        rw [pyGet?_pySet_same]
        simp only [Option.some_bind]
      · rw [if_neg (by rintro ⟨_, _, h⟩; exact hi h)]
        rw [show pyGet? (pySet ((pyGet? ((pyGet? m c').getD []) t').getD []) i d) i' =
          pyGet? ((pyGet? ((pyGet? m c').getD []) t').getD []) i'
          from pyGet?_pySet_ne _ _ _ _ hi]
        rcases h1 : pyGet? m c' with _ | m2
        · simp [h1, pyGet?]
        · simp only [h1, Option.getD_some, Option.some_bind]
          rcases h2 : pyGet? m2 t' with _ | m3
          · simp [h2, pyGet?]
          · simp [h2]
    · rw [show pyGet? (pySet ((pyGet? m c').getD []) t
          (pySet ((pyGet? ((pyGet? m c').getD []) t).getD []) i d)) t' =
        pyGet? ((pyGet? m c').getD []) t' from pyGet?_pySet_ne _ _ _ _ ht]
      rw [if_neg (by rintro ⟨_, h, _⟩; exact ht h)]
      rcases h1 : pyGet? m c' with _ | m2
      · simp [h1, pyGet?]
      · simp [h1]
  · rw [pyGet?_pySet_ne _ _ _ _ hc]
    rw [if_neg (by rintro ⟨h, _, _⟩; exact hc h)]

theorem procRecords_spec (tk : String) :
    ∀ (recs : List CRecord) (d d' : CD4), procRecords d tk recs = .ok d' →
      (∀ k v, pyGet? d' k = some v →
        (∃ r ∈ recs, pyGet? r tk = some k ∧ pyGet? r "data" = some v) ∨
          pyGet? d k = some v) ∧
      (∀ r ∈ recs, ∀ k, pyGet? r tk = some k → ∃ v, pyGet? d' k = some v) ∧
      (∀ k, (∃ v, pyGet? d k = some v) → ∃ v, pyGet? d' k = some v) := by
  intro recs
  induction recs with
  | nil =>
    intro d d' h
    rw [procRecords] at h
    have hd : d' = d := by
      injection h with h'
      exact h'.symm
    subst hd
    exact ⟨fun k v hv => Or.inr hv, fun r hr => absurd hr (by simp),
      fun k hv => hv⟩
  | cons r rest ih =>
    intro d d' h
    rw [procRecords] at h
    rcases hdata : pyGet? r "data" with _ | v0
    · rw [hdata] at h
      cases h
    · rw [hdata] at h
      rcases htime : pyGet? r tk with _ | k0
      · rw [htime] at h
        cases h
      · rw [htime] at h
        rcases ih (pySet d k0 v0) d' h with ⟨hsound, hcomp, hmono⟩
        refine ⟨?_, ?_, ?_⟩
        · intro k v hv
          rcases hsound k v hv with hin | hbase
          · rcases hin with ⟨r', hr', hk', hv'⟩
            exact Or.inl ⟨r', by simp [hr'], hk', hv'⟩
          · by_cases hk : k = k0
            · subst hk
              rw [pyGet?_pySet_same] at hbase
              have hv0 : v = v0 := by
                injection hbase with h'
                exact h'.symm
              subst hv0
              exact Or.inl ⟨r, by simp, htime, hdata⟩
            · rw [pyGet?_pySet_ne _ _ _ _ hk] at hbase
              exact Or.inr hbase
        · intro r' hr' k hk
          rcases List.mem_cons.mp hr' with rfl | hmem
          · have hkk : k = k0 := by
              rw [htime] at hk
              injection hk with h'
              exact h'.symm
            subst hkk
            exact hmono k ⟨v0, pyGet?_pySet_same _ _ _⟩
          · exact hcomp r' hmem k hk
        · intro k hv
          by_cases hk : k = k0
          · subst hk
            exact hmono k ⟨v0, pyGet?_pySet_same _ _ _⟩
          · rcases hv with ⟨v, hv⟩
            exact hmono k ⟨v, by rw [pyGet?_pySet_ne _ _ _ _ hk]; exact hv⟩

theorem asDictFold_spec :
    ∀ (ts : List (String × String × String × Bucket)) (m0 m : CDict),
      asDictFold ts m0 = .ok m →
      (∀ c t i k v, cdGet4? m c t i k = some v →
        (∃ cs ts2 is b recs r, c = SKey.s cs ∧ t = SKey.s ts2 ∧ i = SKey.s is ∧
          (cs, ts2, is, b) ∈ ts ∧ bucketRecs b = .ok recs ∧ r ∈ recs ∧
          pyGet? r (timeKey is) = some k ∧ pyGet? r "data" = some v) ∨
        cdGet4? m0 c t i k = some v) ∧
      (∀ cs ts2 is b recs r k, (cs, ts2, is, b) ∈ ts →
        bucketRecs b = .ok recs → r ∈ recs → pyGet? r (timeKey is) = some k →
        ∃ v, cdGet4? m (SKey.s cs) (SKey.s ts2) (SKey.s is) k = some v) ∧
      (∀ c t i k, (∃ v, cdGet4? m0 c t i k = some v) →
        ∃ v, cdGet4? m c t i k = some v) := by
  intro ts
  induction ts with
  | nil =>
    intro m0 m h
    rw [asDictFold] at h
    have hm : m = m0 := by
      injection h with h'
      exact h'.symm
    subst hm
    exact ⟨fun c t i k v hv => Or.inr hv, fun cs ts2 is b recs r k hmem => absurd hmem (by simp),
      fun c t i k hv => hv⟩
  | cons hd rest ih =>
    obtain ⟨cs0, ts0, is0, b0⟩ := hd
    intro m0 m h
    rw [asDictFold] at h
    rcases hbr : bucketRecs b0 with e | recs0
    · rw [hbr] at h
      cases h
    · rw [hbr] at h
      have h2 : (match procRecords (cdGet3 m0 (SKey.s cs0) (SKey.s ts0) (SKey.s is0))
          (timeKey is0) recs0 with
        | Except.error e => Except.error e
        | Except.ok d => asDictFold rest
            (cdSet3 m0 (SKey.s cs0) (SKey.s ts0) (SKey.s is0) d)) = Except.ok m := h
      clear h
      rcases hpr : procRecords (cdGet3 m0 (SKey.s cs0) (SKey.s ts0) (SKey.s is0))
          (timeKey is0) recs0 with e | d0
      · rw [hpr] at h2
        cases h2
      · rw [hpr] at h2
        rcases procRecords_spec (timeKey is0) recs0 _ _ hpr with ⟨psound, pcomp, pmono⟩
        rcases ih _ m h2 with ⟨isound, icomp, imono⟩
        refine ⟨?_, ?_, ?_⟩
        · intro c t i k v hv
          rcases isound c t i k v hv with hin | hbase
          · rcases hin with ⟨cs, ts2, is, b, recs, r, hc, ht, hi, hmem, hbrx, hr, hk, hvv⟩
            exact Or.inl ⟨cs, ts2, is, b, recs, r, hc, ht, hi, by simp [hmem], hbrx, hr, hk, hvv⟩
          · rw [cdGet4?_cdSet3] at hbase
            by_cases hpath : c = SKey.s cs0 ∧ t = SKey.s ts0 ∧ i = SKey.s is0
            · rw [if_pos hpath] at hbase
              obtain ⟨rfl, rfl, rfl⟩ := hpath
              rcases psound k v hbase with hrec | hold
              · rcases hrec with ⟨r, hr, hk, hvv⟩
                exact Or.inl ⟨cs0, ts0, is0, b0, recs0, r, rfl, rfl, rfl,
                  by simp, hbr, hr, hk, hvv⟩
              · rw [pyGet?_cdGet3] at hold
                exact Or.inr hold
            · rw [if_neg hpath] at hbase
              exact Or.inr hbase
        · intro cs ts2 is b recs r k hmem hbrx hr hk
          rcases List.mem_cons.mp hmem with heq | hmem'
          · have hcs : cs = cs0 ∧ ts2 = ts0 ∧ is = is0 ∧ b = b0 := by
              injection heq with h1 h2
              injection h2 with h2a h3
              injection h3 with h3a h4
              exact ⟨h1, h2a, h3a, h4⟩
            obtain ⟨rfl, rfl, rfl, rfl⟩ := hcs
            have hrecs : recs = recs0 := by
              rw [hbr] at hbrx
              injection hbrx with h'
              exact h'.symm
            subst hrecs
            rcases pcomp r hr k hk with ⟨v, hv⟩
            apply imono
            refine ⟨v, ?_⟩
            rw [cdGet4?_cdSet3, if_pos ⟨rfl, rfl, rfl⟩]
            exact hv
          · exact icomp cs ts2 is b recs r k hmem' hbrx hr hk
        · intro c t i k hv
          apply imono
          rw [cdGet4?_cdSet3]
          by_cases hpath : c = SKey.s cs0 ∧ t = SKey.s ts0 ∧ i = SKey.s is0
          · rw [if_pos hpath]
            apply pmono
            obtain ⟨rfl, rfl, rfl⟩ := hpath
            rcases hv with ⟨v, hv⟩
            exact ⟨v, by rw [pyGet?_cdGet3]; exact hv⟩
          · rw [if_neg hpath]
            exact hv

theorem timeKey_eq_specced (i : String) : timeKey i = timeKeySpecced i := by
  unfold timeKey timeKeySpecced
  by_cases hy : i = "year"
  · subst hy
    simp
  · by_cases hd : i = "decade"
    · subst hd
      simp
    · rw [if_neg hd, if_neg (by simp [hy, hd])]
      by_cases hm : i = "month"
      · subst hm
        simp
      · rw [if_neg hm]

theorem mem_respTriples (resp : CResponses) (c t i : String) (b : Bucket) :
    (c, t, i, b) ∈ respTriples resp ↔
      ∃ cd td, (c, cd) ∈ resp ∧ (t, td) ∈ cd ∧ (i, b) ∈ td := by
  simp only [respTriples, List.mem_flatMap, List.mem_map]
  constructor
  · rintro ⟨⟨pc, pd⟩, hp, ⟨qc, qd⟩, hq, ⟨rc, rd⟩, hr, heq⟩
    have he : pc = c ∧ qc = t ∧ rc = i ∧ rd = b := by
      simpa using heq
    obtain ⟨rfl, rfl, rfl, rfl⟩ := he
    exact ⟨pd, qd, hp, hq, hr⟩
  · rintro ⟨cd, td, hc, ht, hi⟩
    refine ⟨(c, cd), hc, (t, td), ht, (i, b), hi, ?_⟩
    simp

theorem bucketRecs_nonempty (b : Bucket) (recs : List CRecord) (r : CRecord)
    (hb : bucketRecs b = .ok recs) (hr : r ∈ recs) :
    pyGet? b "response" = some (BEntry.recs recs) := by
  unfold bucketRecs at hb
  rcases hresp : pyGet? b "response" with _ | e
  · rw [hresp] at hb
    have hb2 : Except.ok ([] : List CRecord) = Except.ok recs := hb
    injection hb2 with h'
    subst h'
    exact absurd hr (by simp)
  · rcases e with l | u
    · rw [hresp] at hb
      have hb2 : (Except.ok l : Except String (List CRecord)) = Except.ok recs := hb
      injection hb2 with h'
      rw [h']
    · rw [hresp] at hb
      have hb2 : (if u = "" then Except.ok ([] : List CRecord)
          else Except.error "TypeError: string record") = Except.ok recs := hb
      by_cases hu : u = ""
      · rw [if_pos hu] at hb2
        injection hb2 with h'
        subst h'
        exact absurd hr (by simp)
      · rw [if_neg hu] at hb2
        cases hb2

/-- C5: whenever `as_dict` returns a map, (a) the time field it read for each
interval is the one the spec's lookup table describes (`"year"` for both
`"year"` and `"decade"`, `"month"` for `"month"`, the interval name itself
otherwise); (b) every entry `map[location][variable][interval][timeValue] =
dataValue` of the result originates from a record of that bucket's
`"response"` list, with the time value read from the selected field and the
data value from `"data"` — in particular the `"url"` metadata entry never
contributes a value; (c) conversely every record of every bucket's
`"response"` list contributes an entry under its time value. -/
theorem c5_as_dict_builds_map (resp : CResponses) (m : CDict)
    (h : asDict resp = .ok m) :
    (∀ i, timeKey i = timeKeySpecced i) ∧
    (∀ c t i k v, cdGet4? m c t i k = some v →
      ∃ cs ts is cd td b recs r, c = SKey.s cs ∧ t = SKey.s ts ∧ i = SKey.s is ∧
        (cs, cd) ∈ resp ∧ (ts, td) ∈ cd ∧ (is, b) ∈ td ∧
        pyGet? b "response" = some (BEntry.recs recs) ∧ r ∈ recs ∧
        pyGet? r (timeKey is) = some k ∧ pyGet? r "data" = some v) ∧
    (∀ cs cd ts td is b recs r k, (cs, cd) ∈ resp → (ts, td) ∈ cd →
      (is, b) ∈ td → bucketRecs b = .ok recs → r ∈ recs →
      pyGet? r (timeKey is) = some k →
      ∃ v, cdGet4? m (SKey.s cs) (SKey.s ts) (SKey.s is) k = some v) := by
  unfold asDict at h
  rcases asDictFold_spec (respTriples resp) [] m h with ⟨hsound, hcomp, _⟩
  refine ⟨timeKey_eq_specced, ?_, ?_⟩
  · intro c t i k v hv
    rcases hsound c t i k v hv with hin | hbase
    · rcases hin with ⟨cs, ts2, is, b, recs, r, hc, ht, hi, hmem, hbr, hr, hk, hvv⟩
      rcases (mem_respTriples resp cs ts2 is b).mp hmem with ⟨cd, td, hcd, htd, hib⟩
      exact ⟨cs, ts2, is, cd, td, b, recs, r, hc, ht, hi, hcd, htd, hib,
        bucketRecs_nonempty b recs r hbr hr, hr, hk, hvv⟩
    · exact absurd hbase (by simp [cdGet4?, pyGet?])
  · intro cs cd ts td is b recs r k hcd htd hib hbr hr hk
    exact hcomp cs ts is b recs r k
      ((mem_respTriples resp cs ts is b).mpr ⟨cd, td, hcd, htd, hib⟩) hbr hr hk

theorem c5_as_dict_builds_map_witness :
    asDict c5resp = .ok c5dict ∧
    (∃ v, cdGet4? c5dict (SKey.s "ETH") (SKey.s "pr") (SKey.s "month")
      (SKey.i 0) = some v) := by
  refine ⟨by rfl, ?_⟩
  exact (c5_as_dict_builds_map c5resp c5dict (by rfl)).2.2 "ETH"
    [("pr", [("month", c5bucket)])] "pr" [("month", c5bucket)] "month" c5bucket
    [[("data", SKey.i 5), ("month", SKey.i 0)]]
    [("data", SKey.i 5), ("month", SKey.i 0)] (SKey.i 0)
    (by simp [c5resp]) (by simp) (by simp) (by rfl) (by simp) (by rfl)

end SimpleWbd
